import Mathlib

/-!
Verification development for the pyjudge reconciliation engine.

The definitions below are a shallow embedding of the test-case and
submission reconciliation code in `judge/action/update.py`
(`create_or_update_problem`, lines 171-365, and
`create_problem_submissions`, lines 451-630) together with the helper
`judge/action/data.py`.  The near-identical `pydomjudge/action/update.py`
variants are modelled where they differ (the metadata-refresh branch of
`create_problem_submissions`, lines 1226-1232 there).

Modelling conventions:
* the MySQL `testcase` table for one problem is a `List TcRow`; the
  separate `testcase_content` table is folded into the per-row flags
  `hasContent`/`hasImage` (only existence and image-presence are ever
  observed by the code);
* every SQL write is emitted as an explicit event (`TcEvent`,
  `SubEvent`) and the store is advanced by the corresponding `apply`
  function, so the final store is by construction the replay of the
  event trace;
* auto-increment ids are modelled by an explicit `nextId` counter;
* content bytes are represented by their fingerprints: per §4.1 of the
  engine's design the md5 digest is deterministic and is the only
  observation the code ever makes of content, so the stored
  `MD5(sourcecode)` of an inserted file equals the `source_md5` of the
  desired submission it came from.
-/

namespace Pyjudge

/-! ### Data model: `judge/action/data.py` -/

/-- `DbTestCase` from `judge/action/data.py` (lines 5-21). -/
structure DbTestCase where
  case_id : Nat
  name : String
  description : Option String
  rank : Nat
  input_md5 : String
  output_md5 : String
deriving Repr, DecidableEq

/-- `test_case_compare_key` from `judge/action/data.py` (lines 24-29):
tiered prefix match over the case name, tie-broken by the remainder. -/
def test_case_compare_key (case : DbTestCase) : Nat × String :=
  let order := ["sample", "tiny", "small", "medium", "large", "huge", "special"]
  match order.findIdx? (fun p => case.name.startsWith p) with
  | some i => (i, case.name.drop (order[i]!).length)
  | none => (order.length, case.name)

/-- Desired test case: the `ProblemTestCase` interface of
`judge/model/problem.py` as consumed by `create_or_update_problem`
(unique name, optional description, content fingerprints, sample flag,
optional image extension). -/
structure ProblemTestCase where
  unique_name : String
  description : Option String
  input_md5 : String
  output_md5 : String
  sample : Bool
  image_extension : Option String
deriving Repr, DecidableEq

/-! ### Persisted store -/

/-- One row of the `testcase` table (for the reconciled problem),
with the associated `testcase_content` row abridged to the two facts
the code observes about it: whether it exists (`hasContent`) and
whether its `image` column is non-NULL (`hasImage`). -/
structure TcRow where
  id : Nat
  name : String
  description : Option String
  rank : Nat
  input_md5 : String
  output_md5 : String
  sample : Bool
  image_type : Option String
  deleted : Bool
  hasContent : Bool
  hasImage : Bool
deriving Repr, DecidableEq

/-- MySQL coercion of a string to an integer when compared against an
integer column: the longest (signed) numeric prefix, else 0.  Used to
model the effect of the swapped-parameter statement
`UPDATE testcase SET description = ? WHERE testcaseid = ?` executed
with arguments `(case_id, description)` (update.py lines 240-241). -/
def mysqlNumericPrefix (s : String) : Int :=
  let digits (cs : List Char) : Nat :=
    (cs.takeWhile Char.isDigit).foldl (fun a c => a * 10 + (c.toNat - 48)) 0
  match s.data with
  | '-' :: rest => -(digits rest : Int)
  | cs => (digits cs : Int)

/-- Whether the WHERE clause `testcaseid = ?` matches row id `n` when the
bound parameter is the (string-or-NULL) description value: NULL never
matches; a string is coerced numerically. -/
def mysqlIdMatchesDesc (n : Nat) : Option String → Bool
  | none => false
  | some s => mysqlNumericPrefix s == (n : Int)

/-- The write statements executed by the test-case part of
`create_or_update_problem` (judge/action/update.py lines 234-352). -/
inductive TcEvent where
  /-- Line 240: `UPDATE testcase SET description = ? WHERE testcaseid = ?`
  executed with parameters `(case_id, truncated description)` — in this
  order, i.e. swapped relative to the statement's placeholders. -/
  | updateDescription (case_id : Nat) (descParam : Option String)
  /-- Lines 250-253: update of `md5sum_input`/`md5sum_output`. -/
  | updateHashes (id : Nat) (inMd5 outMd5 : String)
  /-- Lines 275-279: recycling UPDATE of a leftover row. -/
  | recycleUpdate (id : Nat) (name : String) (descr : Option String)
      (inMd5 outMd5 : String) (sample : Bool) (img : Option String)
  /-- Lines 284-287: INSERT of a fresh row. -/
  | insertCase (id : Nat) (name : String) (descr : Option String)
      (inMd5 outMd5 : String) (sample : Bool) (img : Option String) (rank : Nat)
  /-- Line 297: DELETE of the content rows of the leftover cases. -/
  | deleteContent (ids : List Nat)
  /-- Line 299: DELETE of the leftover rows themselves. -/
  | deleteCases (ids : List Nat)
  /-- Lines 324 and 326: `UPDATE testcase SET rank = ? WHERE testcaseid = ?`. -/
  | updateRank (id : Nat) (rank : Nat)
  /-- Lines 340-343: `REPLACE INTO testcase_content ...`. -/
  | replaceContent (id : Nat) (withImage : Bool)
  /-- Lines 348-350: strip images from cases without an image extension;
  `affected` records the number of rows actually changed. -/
  | stripImages (ids : List Nat) (affected : Nat)
deriving Repr, DecidableEq

/-- Effect of one write statement on the store. -/
def applyTcEvent (s : List TcRow) : TcEvent → List TcRow
  | .updateDescription case_id descParam =>
      s.map fun r =>
        if mysqlIdMatchesDesc r.id descParam then
          { r with description := some (toString case_id) }
        else r
  | .updateHashes id inMd5 outMd5 =>
      s.map fun r => if r.id = id then { r with input_md5 := inMd5, output_md5 := outMd5 } else r
  | .recycleUpdate id name descr inMd5 outMd5 sample img =>
      s.map fun r =>
        if r.id = id then
          { r with name := name, description := descr, input_md5 := inMd5,
                   output_md5 := outMd5, sample := sample, image_type := img,
                   deleted := false }
        else r
  | .insertCase id name descr inMd5 outMd5 sample img rank =>
      s ++ [{ id := id, name := name, description := descr, rank := rank,
              input_md5 := inMd5, output_md5 := outMd5, sample := sample,
              image_type := img, deleted := false, hasContent := false,
              hasImage := false }]
  | .deleteContent ids =>
      s.map fun r => if r.id ∈ ids then { r with hasContent := false, hasImage := false } else r
  | .deleteCases ids => s.filter fun r => r.id ∉ ids
  | .updateRank id rank =>
      s.map fun r => if r.id = id then { r with rank := rank } else r
  | .replaceContent id withImage =>
      s.map fun r => if r.id = id then { r with hasContent := true, hasImage := withImage } else r
  | .stripImages ids _ =>
      s.map fun r => if r.id ∈ ids then { r with hasImage := false } else r

def applyTcEvents (s : List TcRow) (es : List TcEvent) : List TcRow :=
  es.foldl applyTcEvent s

/-- Errors the test-case reconciliation can raise. -/
inductive TcError where
  /-- Line 212: `KeyError("Duplicate case for problem ...")`. -/
  | duplicateCase
  /-- Line 303: `ValueError("Expected ... cases, got ...")`. -/
  | countMismatch (expected got : Nat)
deriving Repr, DecidableEq

/-! ### Phase 1: snapshot scan (lines 196-216)

The snapshot loop builds the insertion-ordered dict
`testcases_by_name`, the list `leftover_cases` and the running
`maximal_rank`.  A row whose `orig_input_filename` is empty or already
present in the dict goes to the leftovers; the nested duplicate check
(lines 211-212) is kept verbatim even though its guard is subsumed by
the outer condition. -/

structure ScanState where
  maximal_rank : Nat
  by_name : List (String × DbTestCase)
  leftover : List DbTestCase
deriving Repr, DecidableEq

def rowToCase (r : TcRow) : DbTestCase :=
  ⟨r.id, r.name, r.description, r.rank, r.input_md5, r.output_md5⟩

def scanStep (st : ScanState) (r : TcRow) : Except TcError ScanState :=
  let c := rowToCase r
  let st := { st with maximal_rank := max st.maximal_rank r.rank }
  if r.name = "" ∨ (st.by_name.lookup r.name).isSome then
    .ok { st with leftover := st.leftover ++ [c] }
  else
    if (st.by_name.lookup r.name).isSome then
      .error .duplicateCase
    else
      .ok { st with by_name := st.by_name ++ [(r.name, c)] }

def scanSnapshot (store : List TcRow) : Except TcError ScanState :=
  store.foldlM scanStep { maximal_rank := 0, by_name := [], leftover := [] }

/-! ### Phase 2: key matching (lines 218-229) -/

structure MatchState where
  by_name : List (String × DbTestCase)
  matched : List (ProblemTestCase × DbTestCase)
  missing : List ProblemTestCase
deriving Repr, DecidableEq

def matchStep (st : MatchState) (ptc : ProblemTestCase) : MatchState :=
  match st.by_name.lookup ptc.unique_name with
  | some c =>
      { st with by_name := st.by_name.eraseP (fun e => e.1 == ptc.unique_name),
                matched := st.matched ++ [(ptc, c)] }
  | none => { st with missing := st.missing ++ [ptc] }

def matchCases (desired : List ProblemTestCase) (by_name : List (String × DbTestCase)) :
    MatchState :=
  desired.foldl matchStep { by_name := by_name, matched := [], missing := [] }

/-- Description truncation (lines 236-238 and 263-265): applied only to a
non-`None`, non-empty description of length at least 255. -/
def truncateDescription : Option String → Option String
  | none => none
  | some s => if s ≠ "" && decide (s.length ≥ 255) then some (s.take 255) else some s

/-! ### Phase 3: matched-case updates (lines 234-258)

For every matched pair the code first reconciles the description
(executing the swapped-parameter UPDATE of line 240 when the truncated
desired description differs from the stored one, and mirroring the new
value into the in-memory `DbTestCase`), then checks whether a
`testcase_content` row exists and compares the content fingerprints. -/

structure MatchedUpdState where
  store : List TcRow
  events : List TcEvent
  matched : List (ProblemTestCase × DbTestCase)
  upd_content : List (ProblemTestCase × DbTestCase)
deriving Repr, DecidableEq

def rowHasContent (store : List TcRow) (id : Nat) : Bool :=
  match store.find? (fun r => r.id = id) with
  | some r => r.hasContent
  | none => false

def matchedUpdStep (st : MatchedUpdState) (pair : ProblemTestCase × DbTestCase) :
    MatchedUpdState :=
  let ptc := pair.1
  let descr := truncateDescription ptc.description
  let st1 :=
    if descr ≠ pair.2.description then
      { st with store := applyTcEvent st.store (.updateDescription pair.2.case_id descr),
                events := st.events ++ [.updateDescription pair.2.case_id descr] }
    else st
  let c :=
    if descr ≠ pair.2.description then { pair.2 with description := descr } else pair.2
  if rowHasContent st1.store c.case_id then
    if ptc.input_md5 ≠ c.input_md5 ∨ ptc.output_md5 ≠ c.output_md5 then
      let c2 := { c with input_md5 := ptc.input_md5, output_md5 := ptc.output_md5 }
      { st1 with store := applyTcEvent st1.store
                   (.updateHashes c2.case_id ptc.input_md5 ptc.output_md5),
                 events := st1.events ++ [.updateHashes c2.case_id ptc.input_md5 ptc.output_md5],
                 matched := st1.matched ++ [(ptc, c2)],
                 upd_content := st1.upd_content ++ [(ptc, c2)] }
    else { st1 with matched := st1.matched ++ [(ptc, c)] }
  else
    { st1 with matched := st1.matched ++ [(ptc, c)],
               upd_content := st1.upd_content ++ [(ptc, c)] }

def matchedUpdates (store : List TcRow) (matched : List (ProblemTestCase × DbTestCase)) :
    MatchedUpdState :=
  matched.foldl matchedUpdStep
    { store := store, events := [], matched := [], upd_content := [] }

/-! ### Phase 4: recycling and insertion of missing cases (lines 262-292)

Each missing desired case consumes the last leftover row if one
remains (an in-place UPDATE preserving the row's id and rank and
clearing the `deleted` flag), otherwise a fresh row is inserted with
rank `maximal_rank + 1`. -/

structure CreateState where
  store : List TcRow
  events : List TcEvent
  leftover : List DbTestCase
  maximal_rank : Nat
  nextId : Nat
  created : List (ProblemTestCase × DbTestCase)
deriving Repr, DecidableEq

def createStep (st : CreateState) (ptc : ProblemTestCase) : CreateState :=
  let descr := truncateDescription ptc.description
  let (st, case_id, case_rank) :=
    match st.leftover.getLast? with
    | some leftover_case =>
        let ev := TcEvent.recycleUpdate leftover_case.case_id ptc.unique_name descr
          ptc.input_md5 ptc.output_md5 ptc.sample ptc.image_extension
        ({ st with store := applyTcEvent st.store ev,
                   events := st.events ++ [ev],
                   leftover := st.leftover.dropLast },
         leftover_case.case_id, leftover_case.rank)
    | none =>
        let rank := st.maximal_rank + 1
        let ev := TcEvent.insertCase st.nextId ptc.unique_name descr
          ptc.input_md5 ptc.output_md5 ptc.sample ptc.image_extension rank
        ({ st with store := applyTcEvent st.store ev,
                   events := st.events ++ [ev],
                   maximal_rank := rank,
                   nextId := st.nextId + 1 },
         st.nextId, rank)
  -- line 289: the in-memory case records the untruncated description
  let c : DbTestCase :=
    ⟨case_id, ptc.unique_name, ptc.description, case_rank, ptc.input_md5, ptc.output_md5⟩
  { st with created := st.created ++ [(ptc, c)] }

def createCases (store : List TcRow) (missing : List ProblemTestCase)
    (leftover : List DbTestCase) (maximal_rank nextId : Nat) : CreateState :=
  missing.foldl createStep
    { store := store, events := [], leftover := leftover,
      maximal_rank := maximal_rank, nextId := nextId, created := [] }

/-! ### Phase 5: rank reassignment (lines 310-327) -/

/-- Non-strict comparison of the sort keys, as used by Python's stable
`sorted`: lexicographic on the (tier, remainder) pair. -/
def caseKeyLe (c₁ c₂ : DbTestCase) : Prop :=
  (test_case_compare_key c₁).1 < (test_case_compare_key c₂).1 ∨
    ((test_case_compare_key c₁).1 = (test_case_compare_key c₂).1 ∧
      (test_case_compare_key c₁).2 ≤ (test_case_compare_key c₂).2)

instance : DecidableRel caseKeyLe := fun c₁ c₂ => by
  unfold caseKeyLe; infer_instance

/-- The stable sort of line 310-311 (`sorted(..., key=test_case_compare_key)`),
modelled by Mathlib's stable insertion sort over the non-strict key order. -/
def sortCases (cases : List DbTestCase) : List DbTestCase :=
  cases.insertionSort caseKeyLe

/-- Lines 312-316: entries whose 1-based sorted position differs from
their current rank, paired with their target rank. -/
def rankUpdateList (sorted_cases : List DbTestCase) : List (Nat × DbTestCase) :=
  sorted_cases.enum.filterMap fun ic =>
    if ic.1 + 1 ≠ ic.2.rank then some (ic.1 + 1, ic.2) else none

/-- Lines 318-327: the two-phase rank write plan, as (`testcaseid`,
new rank) pairs in execution order.  Phase one walks the entities
needing a change, assigning `max(current ranks) + 2, + 3, ...`; phase
two assigns the true targets. -/
def rankPhaseWrites (existing : List DbTestCase) : List (Nat × Nat) :=
  let rank_update := rankUpdateList (sortCases existing)
  if rank_update.isEmpty then []
  else
    let maximal_rank := (existing.map (·.rank)).foldl max 0 + 1
    (rank_update.enum.map fun jc => (jc.2.2.case_id, maximal_rank + 1 + jc.1)) ++
      rank_update.map fun rc => (rc.2.case_id, rc.1)

/-! ### Phase 6: content rewrite and image stripping (lines 331-352) -/

def contentEvents (upd_content : List (ProblemTestCase × DbTestCase)) : List TcEvent :=
  upd_content.map fun pc => .replaceContent pc.2.case_id pc.1.image_extension.isSome

def casesWithoutImageIds (existing : List (ProblemTestCase × DbTestCase)) : List Nat :=
  (existing.filter fun pc => pc.1.image_extension.isNone).map (·.2.case_id)

/-- Number of rows an `UPDATE testcase_content SET image = NULL ...`
actually changes (mysql reports changed rows). -/
def stripAffected (store : List TcRow) (ids : List Nat) : Nat :=
  (store.filter fun r => r.id ∈ ids ∧ r.hasImage).length

/-! ### The full test-case reconciliation -/

/-- Outcome of `create_or_update_problem`'s test-case section: the final
store, the executed write events in order, and the next free id. -/
structure TcResult where
  store : List TcRow
  events : List TcEvent
  nextId : Nat
deriving Repr, DecidableEq

/-- Intermediate data just before the rank-reassignment phase, exposed
so that theorems can speak about the store state between commits. -/
structure TcPrep where
  store : List TcRow
  events : List TcEvent
  existing : List (ProblemTestCase × DbTestCase)
  upd_content : List (ProblemTestCase × DbTestCase)
  nextId : Nat
deriving Repr, DecidableEq

/-- Lines 196-303: everything before the rank phase (snapshot scan, key
matching, matched updates, recycle/insert, leftover deletion and the
count consistency check). -/
def reconcilePrep (desired : List ProblemTestCase) (store : List TcRow) (nextId : Nat) :
    Except TcError TcPrep :=
  match scanSnapshot store with
  | .error e => .error e
  | .ok scan =>
    let ms := matchCases desired scan.by_name
    let leftover := scan.leftover ++ ms.by_name.map (·.2)
    let mu := matchedUpdates store ms.matched
    let cs := createCases mu.store ms.missing leftover scan.maximal_rank nextId
    let (store₂, events₂) :=
      if cs.leftover.isEmpty then (cs.store, [])
      else
        let ids := cs.leftover.map (·.case_id)
        let evs := [TcEvent.deleteContent ids, TcEvent.deleteCases ids]
        (applyTcEvents cs.store evs, evs)
    let existing := mu.matched ++ cs.created
    if existing.length ≠ desired.length then
      .error (.countMismatch desired.length existing.length)
    else
      .ok { store := store₂, events := mu.events ++ cs.events ++ events₂,
            existing := existing, upd_content := mu.upd_content ++ cs.created,
            nextId := cs.nextId }

/-- The test-case section of `create_or_update_problem`
(judge/action/update.py lines 196-352). -/
def reconcileTestCases (desired : List ProblemTestCase) (store : List TcRow)
    (nextId : Nat) : Except TcError TcResult :=
  match reconcilePrep desired store nextId with
  | .error e => .error e
  | .ok prep =>
    let rankWrites := rankPhaseWrites (prep.existing.map (·.2))
    let rankEvents := rankWrites.map fun w => TcEvent.updateRank w.1 w.2
    let store₃ := applyTcEvents prep.store rankEvents
    let contEvents := contentEvents prep.upd_content
    let store₄ := applyTcEvents store₃ contEvents
    let imgIds := casesWithoutImageIds prep.existing
    let (store₅, imgEvents) :=
      if imgIds.isEmpty then (store₄, [])
      else
        ([TcEvent.stripImages imgIds (stripAffected store₄ imgIds)].foldl applyTcEvent store₄,
         [TcEvent.stripImages imgIds (stripAffected store₄ imgIds)])
    .ok { store := store₅,
          events := prep.events ++ rankEvents ++ contEvents ++ imgEvents,
          nextId := prep.nextId }

inductive Verdict where
  | COMPILER_ERROR | PRESENTATION_ERROR | CORRECT | TIME_LIMIT | MEMORY_LIMIT
  | OUTPUT_LIMIT | RUN_ERROR | WRONG_ANSWER | NO_OUTPUT
deriving Repr, DecidableEq

/-- Python's `Verdict.name` (the enum member name), as serialized at
judge/action/update.py line 611. -/
def Verdict.pyName : Verdict → String
  | .COMPILER_ERROR => "COMPILER_ERROR"
  | .PRESENTATION_ERROR => "PRESENTATION_ERROR"
  | .CORRECT => "CORRECT"
  | .TIME_LIMIT => "TIME_LIMIT"
  | .MEMORY_LIMIT => "MEMORY_LIMIT"
  | .OUTPUT_LIMIT => "OUTPUT_LIMIT"
  | .RUN_ERROR => "RUN_ERROR"
  | .WRONG_ANSWER => "WRONG_ANSWER"
  | .NO_OUTPUT => "NO_OUTPUT"

/-- Modelled from the spec: `Verdict.get` lives in
`judge/model/submission.py`, which is absent from the source tree (only
its callers are present).  Per §4.5/§8 of the spec the stored
expected-outcome values written by the engine itself must parse back
(otherwise the engine could not be idempotent), so `get` is modelled as
the inverse of the member-name serialization used at insert time;
unknown keys fail (the `KeyError` soft-fail path of line 501). -/
def Verdict.get (key : String) : Option Verdict :=
  [Verdict.COMPILER_ERROR, .PRESENTATION_ERROR, .CORRECT, .TIME_LIMIT, .MEMORY_LIMIT,
   .OUTPUT_LIMIT, .RUN_ERROR, .WRONG_ANSWER, .NO_OUTPUT].find?
    (fun v => v.pyName == key)

/-- `value[0]` of the `Verdict` enum in `pyjudge/model/submission.py`:
the judge-side key, inverted by `Verdict.parse_from_judge`.
`judge_key()` itself is in the absent `pydomjudge/model/submission.py`;
modelled from the spec as returning this key, consistently with
`parse_from_judge` in the present `pyjudge` copy of the enum. -/
def Verdict.judge_key : Verdict → String
  | .COMPILER_ERROR => "COMPILER_ERROR"
  | .PRESENTATION_ERROR => "PRESENTATION_ERROR"
  | .CORRECT => "CORRECT"
  | .TIME_LIMIT => "TIMELIMIT"
  | .MEMORY_LIMIT => "MEMORY_LIMIT"
  | .OUTPUT_LIMIT => "OUTPUT_LIMIT"
  | .RUN_ERROR => "RUN_ERROR"
  | .WRONG_ANSWER => "WRONG-ANSWER"
  | .NO_OUTPUT => "NO_OUTPUT"

/-- Desired submission: the `ProblemSubmission` interface consumed by
`create_problem_submissions` (single file; content represented by its
fingerprint, see the header note). -/
structure ProblemSubmission where
  file_name : String
  language_key : String
  source_md5 : String
  expected_results : List Verdict
deriving Repr, DecidableEq

/-- One row of the `submission` table for the reconciled problem. -/
structure SubRow where
  submitid : Nat
  origsubmitid : Option Nat
  teamid : Nat
  cid : Nat
  /-- the JSON `expected_results` column, already split into the list of
  serialized verdict keys (`none` models SQL NULL / the empty string). -/
  expected_results : Option (List String)
  langid : String
  submittime : Nat
deriving Repr, DecidableEq

/-- One row of the `submission_file` table; the source bytes are
represented by their md5 fingerprint. -/
structure SubFile where
  submitid : Nat
  filename : String
  md5 : String
deriving Repr, DecidableEq

structure SubStore where
  subs : List SubRow
  files : List SubFile
deriving Repr, DecidableEq

/-- The write statements executed by `create_problem_submissions`. -/
inductive SubEvent where
  /-- Lines 606-611: `INSERT INTO submission ...`. -/
  | insertSubmission (sid : Nat) (orig : Option Nat) (cid tid : Nat)
      (langid : String) (submittime : Nat) (expected : List String)
  /-- Lines 613-615: `INSERT INTO submission_file ...`. -/
  | insertSubmissionFile (sid : Nat) (filename md5 : String)
  /-- pydomjudge/action/update.py lines 1226-1232 (absent from the judge
  variant): metadata refresh of an unchanged head. -/
  | updateSubmissionMeta (sid : Nat) (submittime : Nat) (expected : List String)
  /-- Lines 619-621. -/
  | deleteSubmissionFiles (ids : List Nat)
  /-- Lines 622-624. -/
  | deleteSubmissions (ids : List Nat)
deriving Repr, DecidableEq

def applySubEvent (st : SubStore) : SubEvent → SubStore
  | .insertSubmission sid orig cid tid langid t expected =>
      { st with subs := st.subs ++
          [{ submitid := sid, origsubmitid := orig, teamid := tid, cid := cid,
             expected_results := some expected, langid := langid, submittime := t }] }
  | .insertSubmissionFile sid fn md5 =>
      { st with files := st.files ++ [{ submitid := sid, filename := fn, md5 := md5 }] }
  | .updateSubmissionMeta sid t expected =>
      { st with subs := st.subs.map fun r =>
          if r.submitid = sid then { r with submittime := t, expected_results := some expected } else r }
  | .deleteSubmissionFiles ids => { st with files := st.files.filter (fun f => f.submitid ∉ ids) }
  | .deleteSubmissions ids => { st with subs := st.subs.filter (fun r => r.submitid ∉ ids) }

def applySubEvents (st : SubStore) (es : List SubEvent) : SubStore :=
  es.foldl applySubEvent st

/-- Errors `create_problem_submissions` can raise. -/
inductive SubError where
  /-- the `teamid IN ()` query produced when no desired submission
  exists is a MySQL syntax error. -/
  | malformedQuery
  /-- Line 478: `KeyError("Not all given contests exist")`. -/
  | contestsMissing
  /-- Line 506: `ValueError("Multiple submissions for id ...")`. -/
  | duplicateSubmissionId (id : Nat)
  /-- Lines 509-512: `ValueError("Multiple successors ...")`. -/
  | multipleSuccessors (id : Nat)
  /-- Line 527: `ValueError("Duplicate file names ...")`. -/
  | duplicateFileName (id : Nat)
  /-- Line 538: a fileless submission makes `file_names` the unhashable
  dict `{}` (the source's default), a `TypeError` at line 541. -/
  | unhashableFileKey (id : Nat)
  /-- Line 541: `KeyError` when a snapshot row's contest id is not among
  the reconciled contests. -/
  | unknownContest (cid : Nat)
  /-- Line 568: `ValueError("Cyclic submission ...")`. -/
  | cyclicSubmission
  /-- fuel exhaustion marker of the modelled successor walk; proved
  unreachable. -/
  | walkNontermination
  /-- Line 596: `assert len(file_names) == 1`. -/
  | assertionFailed
  /-- Line 597: `KeyError` on the per-file hash lookup. -/
  | missingFileHash
  /-- Line 584: `KeyError` on the `existing_submissions` lookup. -/
  | unknownSubmission
deriving Repr, DecidableEq

/-! ### Submission pipeline, step 1: grouping the desired set
(lines 480-489). -/

structure Grouped where
  grouped : List ((Nat × List String) × ProblemSubmission)
  used_team_ids : List Nat
deriving Repr, DecidableEq

def groupStep (g : Grouped) (ts : Nat × ProblemSubmission) : Grouped :=
  let key : Nat × List String := (ts.1, [ts.2.file_name])
  if (g.grouped.lookup key).isSome then g
  else
    { grouped := g.grouped ++ [(key, ts.2)],
      used_team_ids :=
        if ts.1 ∈ g.used_team_ids then g.used_team_ids else g.used_team_ids ++ [ts.1] }

def groupSubmissions (desired : List (Nat × ProblemSubmission)) : Grouped :=
  desired.foldl groupStep { grouped := [], used_team_ids := [] }

/-! ### Step 2: contest resolution (lines 471-478, the explicit-ids path;
`contest_ids = set(contest_ids)` is modelled by order-preserving
deduplication). -/

def resolveContests (contestIds : List Nat) (contests : List (Nat × Nat)) :
    Except SubError (List Nat × List (Nat × Nat)) :=
  let cids := contestIds.eraseDups
  let contest_start := (contests.filter (fun c => c.1 ∈ cids)).foldl
    (fun m c => m.eraseP (fun e => e.1 == c.1) ++ [(c.1, c.2)]) []
  if contest_start.length ≠ cids.length then .error .contestsMissing
  else .ok (cids, contest_start)

/-! ### Step 3: snapshot parse and successor map (lines 491-516). -/

/-- Info tuple stored per submission id (line 515):
`(original_submission_id, team_id, contest_id, language_id, expected_results)`. -/
structure SubInfo where
  orig : Option Nat
  teamid : Nat
  cid : Nat
  langid : String
  expected : List Verdict
deriving Repr, DecidableEq

def parseExpected : List String → Option (List Verdict)
  | [] => some []
  | k :: rest => do
      let v ← Verdict.get k
      let vs ← parseExpected rest
      pure (v :: vs)

structure SnapParse where
  invalid_groups : List (Nat × Nat)
  existing : List (Nat × SubInfo)
  successor : List (Nat × Nat)
deriving Repr, DecidableEq

def snapStep (st : SnapParse) (r : SubRow) : Except SubError SnapParse :=
  match parseExpected (r.expected_results.getD []) with
  | none => .ok { st with invalid_groups := st.invalid_groups ++ [(r.cid, r.teamid)] }
  | some expected =>
      if (st.existing.lookup r.submitid).isSome then
        .error (.duplicateSubmissionId r.submitid)
      else
        let info : SubInfo :=
          { orig := r.origsubmitid, teamid := r.teamid, cid := r.cid,
            langid := r.langid, expected := expected }
        match r.origsubmitid with
        | some o =>
            if (st.successor.lookup o).isSome then
              .error (.multipleSuccessors o)
            else
              .ok { st with successor := st.successor ++ [(o, r.submitid)],
                            existing := st.existing ++ [(r.submitid, info)] }
        | none => .ok { st with existing := st.existing ++ [(r.submitid, info)] }

def snapParse (rows : List SubRow) : Except SubError SnapParse :=
  rows.foldlM snapStep { invalid_groups := [], existing := [], successor := [] }

/-! ### Step 4: per-submission files (lines 518-530). -/

def addFileRow (acc : List (Nat × List (String × String))) (f : SubFile) :
    Except SubError (List (Nat × List (String × String))) :=
  match acc.lookup f.submitid with
  | none => .ok (acc ++ [(f.submitid, [(f.filename, f.md5)])])
  | some fs =>
      if (fs.lookup f.filename).isSome then .error (.duplicateFileName f.submitid)
      else .ok (acc.map fun e =>
        if e.1 = f.submitid then (e.1, e.2 ++ [(f.filename, f.md5)]) else e)

def collectFiles (files : List SubFile) (sids : List Nat) :
    Except SubError (List (Nat × List (String × String))) :=
  (files.filter (fun f => f.submitid ∈ sids)).foldlM addFileRow []

def sortStrings (l : List String) : List String :=
  l.insertionSort (· ≤ ·)

/-- `submission_file_names` (lines 529-530): the sorted file-name tuple
of a submission, or `none` for a fileless one (the source's `.get`
default `{}`). -/
def fileNamesOf (filesAssoc : List (Nat × List (String × String))) (sid : Nat) :
    Option (List String) :=
  (filesAssoc.lookup sid).map (fun fs => sortStrings (fs.map (·.1)))

/-! ### Step 5: bucketing by (contest, team, file names) (lines 532-541)

`submissions_by_contest_and_team` is a nested dict filled by appending
each parsed submission under its `(cid, tid, file_names)` key; it is
modelled functionally: an entry list in insertion order, from which the
bucket contents and the first-appearance order of the file-name keys are
recovered by filtering.  A fileless submission uses the unhashable
default `{}` as a dict key (`TypeError`), and a row whose contest is not
a key of the outer dict raises `KeyError`; both become errors here. -/

structure BucketEntry where
  cid : Nat
  tid : Nat
  fns : List String
  sid : Nat
deriving Repr, DecidableEq

def bucketEntries (cids : List Nat)
    (existing : List (Nat × SubInfo))
    (filesAssoc : List (Nat × List (String × String))) :
    Except SubError (List BucketEntry) :=
  existing.foldlM
    (fun acc e =>
      match fileNamesOf filesAssoc e.1 with
      | none => .error (.unhashableFileKey e.1)
      | some fns =>
          if e.2.cid ∈ cids then
            .ok (acc ++ [{ cid := e.2.cid, tid := e.2.teamid, fns := fns, sid := e.1 }])
          else
            .error (.unknownContest e.2.cid))
    []

def entriesFor (entries : List BucketEntry) (cid tid : Nat) : List BucketEntry :=
  entries.filter fun e => e.cid = cid ∧ e.tid = tid

/-- First-appearance order of the file-name keys of one `(cid, tid)`
inner dict. -/
def fnsOrderFor (entries : List BucketEntry) (cid tid : Nat) : List (List String) :=
  ((entriesFor entries cid tid).map (·.fns)).eraseDups

/-- Contents of one bucket, in append order. -/
def bucketSids (entries : List BucketEntry) (cid tid : Nat) (fns : List String) : List Nat :=
  ((entriesFor entries cid tid).filter (fun e => e.fns = fns)).map (·.sid)

/-! ### Step 6: dropping invalid groups (lines 543-547)

Each `(cid, tid)` pair recorded for a parse failure pops that team's
whole inner dict (once), collecting every contained submission id. -/

structure InvalidState where
  popped : List (Nat × Nat)
  invalid_ids : List Nat
deriving Repr, DecidableEq

def invalidStep (cids : List Nat) (used : List Nat) (entries : List BucketEntry)
    (st : InvalidState) (g : Nat × Nat) : InvalidState :=
  if g.1 ∈ cids ∧ g.2 ∈ used ∧ g ∉ st.popped then
    { popped := st.popped ++ [g],
      invalid_ids := st.invalid_ids ++
        (fnsOrderFor entries g.1 g.2).flatMap (bucketSids entries g.1 g.2) }
  else st

def dropInvalid (cids used : List Nat) (entries : List BucketEntry)
    (invalid_groups : List (Nat × Nat)) : InvalidState :=
  invalid_groups.foldl (invalidStep cids used entries) { popped := [], invalid_ids := [] }

/-! ### Step 7: the successor walk and head resolution (lines 552-571). -/

/-- The `while most_recent in submission_successor` loop of lines
564-568, with explicit fuel (the loop adds one fresh key of the
successor map to `visited` per iteration, so `|successor| + 1` steps
always suffice — proved below). -/
def chainWalk (succ : List (Nat × Nat)) : Nat → List Nat → Nat → Except SubError Nat
  | 0, _, _ => .error .walkNontermination
  | fuel + 1, visited, most_recent =>
      match succ.lookup most_recent with
      | none => .ok most_recent
      | some next =>
          let visited := most_recent :: visited
          if next ∈ visited then .error .cyclicSubmission
          else chainWalk succ fuel visited next

structure WalkState where
  current : List ((Nat × Nat × List String) × Nat)
  old : List Nat
deriving Repr, DecidableEq

def walkBucket (grouped : List ((Nat × List String) × ProblemSubmission))
    (succ : List (Nat × Nat)) (cid tid : Nat) (fns : List String) (sids : List Nat)
    (st : WalkState) : Except SubError WalkState :=
  match sids with
  | [] => .ok st
  | first :: _ =>
      if (grouped.lookup (tid, fns)).isSome then
        match chainWalk succ (succ.length + 1) [] first with
        | .error e => .error e
        | .ok head => .ok { st with current := st.current ++ [((cid, tid, fns), head)] }
      else
        .ok { st with old := st.old ++ sids }

def walkLoop (cids used : List Nat) (popped : List (Nat × Nat))
    (entries : List BucketEntry)
    (grouped : List ((Nat × List String) × ProblemSubmission))
    (succ : List (Nat × Nat)) : Except SubError WalkState :=
  cids.foldlM
    (fun st cid =>
      (used.filter (fun tid => (cid, tid) ∉ popped)).foldlM
        (fun st tid =>
          (fnsOrderFor entries cid tid).foldlM
            (fun st fns => walkBucket grouped succ cid tid fns (bucketSids entries cid tid fns) st)
            st)
        st)
    { current := [], old := [] }

/-! ### Step 8: the per-(contest, group) plan loop (lines 573-615). -/

/-- Lines 580-601: whether a fresh chain link must be inserted for a
desired submission whose group already has a head. -/
def submissionInsertNeeded (sub : ProblemSubmission) (fns : List String)
    (existing : List (Nat × SubInfo))
    (filesAssoc : List (Nat × List (String × String))) (hid : Nat) :
    Except SubError Bool :=
  match existing.lookup hid with
  | none => .error .unknownSubmission
  | some info =>
      -- line 585: `submission_files` is a defaultdict, so a missing head
      -- yields the empty file dict rather than an error
      let existing_file_hashes := (filesAssoc.lookup hid).getD []
      if sub.language_key ≠ info.langid then .ok true
      else if sortStrings fns.eraseDups ≠
          sortStrings (existing_file_hashes.map (·.1)).eraseDups then .ok true
      else if fns.length ≠ 1 then .error .assertionFailed
      else
        match existing_file_hashes.lookup sub.file_name with
        | none => .error .missingFileHash
        | some h => .ok (sub.source_md5 ≠ h)

structure PlanState where
  events : List SubEvent
  new_submissions : Nat
  updated_submissions : Nat
  nextId : Nat
deriving Repr, DecidableEq

/-- One iteration of the inner loop of lines 576-615 (the judge
variant: an unchanged head receives no write at all). -/
def planStep (contest_start : List (Nat × Nat)) (current : List ((Nat × Nat × List String) × Nat))
    (existing : List (Nat × SubInfo)) (filesAssoc : List (Nat × List (String × String)))
    (cid : Nat) (st : PlanState) (g : (Nat × List String) × ProblemSubmission) :
    Except SubError PlanState :=
  let ((tid, fns), sub) := g
  let submittime := (contest_start.lookup cid).getD 0
  let expected := sub.expected_results.map Verdict.pyName
  match current.lookup (cid, tid, fns) with
  | none =>
      .ok { events := st.events ++
              [.insertSubmission st.nextId none cid tid sub.language_key submittime expected,
               .insertSubmissionFile st.nextId sub.file_name sub.source_md5],
            new_submissions := st.new_submissions + 1,
            updated_submissions := st.updated_submissions,
            nextId := st.nextId + 1 }
  | some hid =>
      match submissionInsertNeeded sub fns existing filesAssoc hid with
      | .error e => .error e
      | .ok true =>
          .ok { events := st.events ++
                  [.insertSubmission st.nextId (some hid) cid tid sub.language_key submittime expected,
                   .insertSubmissionFile st.nextId sub.file_name sub.source_md5],
                new_submissions := st.new_submissions,
                updated_submissions := st.updated_submissions + 1,
                nextId := st.nextId + 1 }
      | .ok false => .ok st

def planLoop (contest_start : List (Nat × Nat)) (cids : List Nat)
    (grouped : List ((Nat × List String) × ProblemSubmission))
    (current : List ((Nat × Nat × List String) × Nat))
    (existing : List (Nat × SubInfo)) (filesAssoc : List (Nat × List (String × String)))
    (nextId : Nat) : Except SubError PlanState :=
  cids.foldlM
    (fun st cid => grouped.foldlM (planStep contest_start current existing filesAssoc cid) st)
    { events := [], new_submissions := 0, updated_submissions := 0, nextId := nextId }

/-- The pydomjudge variant of the same iteration
(pydomjudge/action/update.py lines 996-1232): identical decision logic,
but an unchanged head receives a metadata refresh
(`UPDATE submission SET submittime = ..., expected_results = ...`), and
the stored expected keys are the `judge_key()` serialization. -/
def planStepDJ (contest_start : List (Nat × Nat)) (current : List ((Nat × Nat × List String) × Nat))
    (existing : List (Nat × SubInfo)) (filesAssoc : List (Nat × List (String × String)))
    (cid : Nat) (st : PlanState) (g : (Nat × List String) × ProblemSubmission) :
    Except SubError PlanState :=
  let ((tid, fns), sub) := g
  let submittime := (contest_start.lookup cid).getD 0
  let expected := sub.expected_results.map Verdict.judge_key
  match current.lookup (cid, tid, fns) with
  | none =>
      .ok { events := st.events ++
              [.insertSubmission st.nextId none cid tid sub.language_key submittime expected,
               .insertSubmissionFile st.nextId sub.file_name sub.source_md5],
            new_submissions := st.new_submissions + 1,
            updated_submissions := st.updated_submissions,
            nextId := st.nextId + 1 }
  | some hid =>
      match submissionInsertNeeded sub fns existing filesAssoc hid with
      | .error e => .error e
      | .ok true =>
          .ok { events := st.events ++
                  [.insertSubmission st.nextId (some hid) cid tid sub.language_key submittime expected,
                   .insertSubmissionFile st.nextId sub.file_name sub.source_md5],
                new_submissions := st.new_submissions,
                updated_submissions := st.updated_submissions + 1,
                nextId := st.nextId + 1 }
      | .ok false =>
          .ok { st with events := st.events ++ [.updateSubmissionMeta hid submittime expected] }

def planLoopDJ (contest_start : List (Nat × Nat)) (cids : List Nat)
    (grouped : List ((Nat × List String) × ProblemSubmission))
    (current : List ((Nat × Nat × List String) × Nat))
    (existing : List (Nat × SubInfo)) (filesAssoc : List (Nat × List (String × String)))
    (nextId : Nat) : Except SubError PlanState :=
  cids.foldlM
    (fun st cid => grouped.foldlM (planStepDJ contest_start current existing filesAssoc cid) st)
    { events := [], new_submissions := 0, updated_submissions := 0, nextId := nextId }

/-! ### The full submission reconciliation -/

structure SubResult where
  store : SubStore
  events : List SubEvent
  /-- (created, updated, deleted) counts of the closing log line. -/
  summary : Nat × Nat × Nat
  nextId : Nat
deriving Repr, DecidableEq

/-- Intermediate resolved data of `create_problem_submissions`, exposed
for the theorems. -/
structure SubPrep where
  cids : List Nat
  contest_start : List (Nat × Nat)
  grouped : List ((Nat × List String) × ProblemSubmission)
  used_team_ids : List Nat
  existing : List (Nat × SubInfo)
  successor : List (Nat × Nat)
  filesAssoc : List (Nat × List (String × String))
  entries : List BucketEntry
  invalid_ids : List Nat
  current : List ((Nat × Nat × List String) × Nat)
  old : List Nat
deriving Repr, DecidableEq

/-- Lines 451-571: everything before the plan loop.  `store` holds the
submissions of the reconciled problem; the snapshot SELECT filters them
by the used team ids (the judge variant has no contest filter). -/
def subPrepare (desired : List (Nat × ProblemSubmission)) (contestIds : List Nat)
    (contests : List (Nat × Nat)) (store : SubStore) :
    Except SubError SubPrep :=
  match resolveContests contestIds contests with
  | .error e => .error e
  | .ok (cids, contest_start) =>
    let g := groupSubmissions desired
    if g.used_team_ids.isEmpty then
      -- `teamid IN ()` is a MySQL syntax error
      .error .malformedQuery
    else
      let rows := store.subs.filter (fun r => r.teamid ∈ g.used_team_ids)
      match snapParse rows with
      | .error e => .error e
      | .ok sp =>
        match collectFiles store.files (sp.existing.map (·.1)) with
        | .error e => .error e
        | .ok filesAssoc =>
          match bucketEntries cids sp.existing filesAssoc with
          | .error e => .error e
          | .ok entries =>
            let inv := dropInvalid cids g.used_team_ids entries sp.invalid_groups
            match walkLoop cids g.used_team_ids inv.popped entries g.grouped sp.successor with
            | .error e => .error e
            | .ok ws =>
              .ok { cids := cids, contest_start := contest_start, grouped := g.grouped,
                    used_team_ids := g.used_team_ids, existing := sp.existing,
                    successor := sp.successor, filesAssoc := filesAssoc, entries := entries,
                    invalid_ids := inv.invalid_ids, current := ws.current, old := ws.old }

/-- `create_problem_submissions` (judge/action/update.py lines 451-630),
for one problem, over the explicitly-given contest ids. -/
def create_problem_submissions (desired : List (Nat × ProblemSubmission))
    (contestIds : List Nat) (contests : List (Nat × Nat)) (store : SubStore)
    (nextId : Nat) : Except SubError SubResult :=
  match subPrepare desired contestIds contests store with
  | .error e => .error e
  | .ok prep =>
    match planLoop prep.contest_start prep.cids prep.grouped prep.current
        prep.existing prep.filesAssoc nextId with
    | .error e => .error e
    | .ok plan =>
      let submissions_to_delete := prep.invalid_ids ++ prep.old
      let deleteEvents :=
        if submissions_to_delete.isEmpty then []
        else [SubEvent.deleteSubmissionFiles submissions_to_delete,
              SubEvent.deleteSubmissions submissions_to_delete]
      let events := plan.events ++ deleteEvents
      .ok { store := applySubEvents store events, events := events,
            summary := (plan.new_submissions, plan.updated_submissions,
              submissions_to_delete.length),
            nextId := plan.nextId }

/-! ### The snapshot scan is total -/

/-- Pure version of `scanStep`: the nested duplicate check (source lines
211-212) is unreachable because the outer condition already routes any
repeated name to the leftovers. -/
def scanStepP (st : ScanState) (r : TcRow) : ScanState :=
  let c := rowToCase r
  let st := { st with maximal_rank := max st.maximal_rank r.rank }
  if r.name = "" ∨ (st.by_name.lookup r.name).isSome then
    { st with leftover := st.leftover ++ [c] }
  else
    { st with by_name := st.by_name ++ [(r.name, c)] }

/-! ### Orphan recycling characterization (C7)

The recycle loop pairs the missing desired cases, in order, with
leftover rows popped from the end of the leftover list; once the
leftovers are exhausted the remaining missing cases become inserts with
ranks `maximal_rank + 1, + 2, ...` and sequential fresh ids. -/

def recycleEventsFor (missing : List ProblemTestCase) (leftover : List DbTestCase) :
    List TcEvent :=
  (missing.zip leftover.reverse).map fun mc =>
    .recycleUpdate mc.2.case_id mc.1.unique_name (truncateDescription mc.1.description)
      mc.1.input_md5 mc.1.output_md5 mc.1.sample mc.1.image_extension

/-- The insert events for the missing cases remaining after the
leftovers are exhausted: sequential fresh ids and ranks. -/
def insertEventsFrom : List ProblemTestCase → Nat → Nat → List TcEvent
  | [], _, _ => []
  | m :: M, mr, nid =>
      .insertCase nid m.unique_name (truncateDescription m.description)
        m.input_md5 m.output_md5 m.sample m.image_extension (mr + 1) ::
      insertEventsFrom M (mr + 1) (nid + 1)

def recycledPairsFor (missing : List ProblemTestCase) (leftover : List DbTestCase) :
    List (ProblemTestCase × DbTestCase) :=
  (missing.zip leftover.reverse).map fun mc =>
    (mc.1, ⟨mc.2.case_id, mc.1.unique_name, mc.1.description, mc.2.rank,
            mc.1.input_md5, mc.1.output_md5⟩)

def insertedPairsFrom : List ProblemTestCase → Nat → Nat → List (ProblemTestCase × DbTestCase)
  | [], _, _ => []
  | m :: M, mr, nid =>
      (m, ⟨nid, m.unique_name, m.description, mr + 1, m.input_md5, m.output_md5⟩) ::
      insertedPairsFrom M (mr + 1) (nid + 1)

/-! ### Pure forms of the test-case pipeline -/

/-- The (always reached) success branch of `reconcilePrep`. -/
def reconcilePrepP (desired : List ProblemTestCase) (store : List TcRow) (nextId : Nat) :
    TcPrep :=
  let scan := store.foldl scanStepP { maximal_rank := 0, by_name := [], leftover := [] }
  let ms := matchCases desired scan.by_name
  let leftover := scan.leftover ++ ms.by_name.map (·.2)
  let mu := matchedUpdates store ms.matched
  let cs := createCases mu.store ms.missing leftover scan.maximal_rank nextId
  let delEvents : List TcEvent :=
    if cs.leftover.isEmpty then []
    else [.deleteContent (cs.leftover.map (·.case_id)),
          .deleteCases (cs.leftover.map (·.case_id))]
  { store := applyTcEvents cs.store delEvents,
    events := mu.events ++ cs.events ++ delEvents,
    existing := mu.matched ++ cs.created,
    upd_content := mu.upd_content ++ cs.created,
    nextId := cs.nextId }

/-- The success branch of `reconcileTestCases`. -/
def reconcileTestCasesP (desired : List ProblemTestCase) (store : List TcRow)
    (nextId : Nat) : TcResult :=
  let prep := reconcilePrepP desired store nextId
  let rankWrites := rankPhaseWrites (prep.existing.map (·.2))
  let rankEvents := rankWrites.map fun w => TcEvent.updateRank w.1 w.2
  let store₃ := applyTcEvents prep.store rankEvents
  let contEvents := contentEvents prep.upd_content
  let store₄ := applyTcEvents store₃ contEvents
  let imgIds := casesWithoutImageIds prep.existing
  let imgEvents : List TcEvent :=
    if imgIds.isEmpty then []
    else [.stripImages imgIds (stripAffected store₄ imgIds)]
  { store := applyTcEvents store₄ imgEvents,
    events := prep.events ++ rankEvents ++ contEvents ++ imgEvents,
    nextId := prep.nextId }

/-- The (id, rank) pairs of the rows inserted for the missing cases that
outlast the leftovers. -/
def insertedIdRanks : List ProblemTestCase → Nat → Nat → List (Nat × Nat)
  | [], _, _ => []
  | _ :: M, mr, nid => (nid, mr + 1) :: insertedIdRanks M (mr + 1) (nid + 1)

/-! ### Replay normal form for rank writes (C1) -/

/-- Sequential application of the rank writes, one row-level UPDATE at a
time (the loops of lines 322-327 commit singly). -/
def applyRankWrites (t : List TcRow) (ws : List (Nat × Nat)) : List TcRow :=
  applyTcEvents t (ws.map fun w => .updateRank w.1 w.2)

/-- The cumulative effect of the rank-write sequence on one row. -/
def applyWritesRow (ws : List (Nat × Nat)) (r : TcRow) : TcRow :=
  ws.foldl (fun r w => if r.id = w.1 then { r with rank := w.2 } else r) r

/-- Whether a sequence of single-row rank writes is safe: each write
assigns a rank not currently held by any other live row. -/
def rankWritesSafe : List TcRow → List (Nat × Nat) → Bool
  | _, [] => true
  | t, w :: ws =>
      t.all (fun r => r.id == w.1 || r.rank != w.2) &&
        rankWritesSafe (applyTcEvent t (.updateRank w.1 w.2)) ws

/-! ### The two phases of the rank plan, separated -/

/-- Phase one of the rank plan: the temporary, monotonically increasing
out-of-range ranks (lines 320-324). -/
def phase1Writes (C : List DbTestCase) : List (Nat × Nat) :=
  (rankUpdateList (sortCases C)).enum.map
    fun jc => (jc.2.2.case_id, (C.map (·.rank)).foldl max 0 + 1 + 1 + jc.1)

/-- Phase two of the rank plan: the true target ranks (lines 325-327). -/
def phase2Writes (C : List DbTestCase) : List (Nat × Nat) :=
  (rankUpdateList (sortCases C)).map fun rc => (rc.2.case_id, rc.1)

/-- The full target assignment: sorted position (1-based) per case id. -/
def targetAssoc (C : List DbTestCase) : List (Nat × Nat) :=
  (sortCases C).enum.map fun ic => (ic.2.case_id, ic.1 + 1)

/-! ### Soundness of the two-phase rank plan -/

/-- The rank a row ends at after both phases: its phase-two target if it
is renumbered, otherwise its current rank. -/
def finalRankOf (C : List DbTestCase) (p : Nat × Nat) : Nat :=
  match (phase2Writes C).lookup p.1 with
  | some v => v
  | none => p.2

/-- The snapshot of the C4 counterexample: a predecessor cycle between
rows 60 and 61, and a standalone head 62 appearing first. -/
def cxCycleRow62 : SubRow :=
  { submitid := 62, origsubmitid := none, teamid := 5, cid := 1,
    expected_results := none, langid := "py", submittime := 100 }

def cxCycleRow60 : SubRow :=
  { submitid := 60, origsubmitid := some 61, teamid := 5, cid := 1,
    expected_results := none, langid := "py", submittime := 100 }

def cxCycleRow61 : SubRow :=
  { submitid := 61, origsubmitid := some 60, teamid := 5, cid := 1,
    expected_results := none, langid := "py", submittime := 100 }

def cxCycleStore : SubStore :=
  { subs := [cxCycleRow62, cxCycleRow60, cxCycleRow61],
    files := [⟨62, "a.py", "H"⟩, ⟨60, "a.py", "H0"⟩, ⟨61, "a.py", "H1"⟩] }

/-- The snapshot of the C6 counterexample: a single head row identical
to the desired submission. -/
def cxIdentStore : SubStore :=
  { subs := [{ submitid := 62, origsubmitid := none, teamid := 5, cid := 1,
               expected_results := none, langid := "py", submittime := 100 }],
    files := [⟨62, "a.py", "H"⟩] }

/-! #### First run over the empty store: a pure insert plan -/

/-- Each (contest, group) pair of the first run's plan, paired with the
submission id it receives. -/
def slotsFrom : List (Nat × ((Nat × List String) × ProblemSubmission)) → Nat →
    List ((Nat × ((Nat × List String) × ProblemSubmission)) × Nat)
  | [], _ => []
  | cg :: ps, nid => (cg, nid) :: slotsFrom ps (nid + 1)

theorem lookup_isSome_iff_mem {α β : Type} [BEq α] [LawfulBEq α]
    (l : List (α × β)) (k : α) :
    (l.lookup k).isSome ↔ k ∈ l.map (·.1) := by
  induction l with
  | nil => simp [List.lookup]
  | cons p rest ih =>
      cases p with
      | mk a b =>
        simp only [List.lookup, List.map_cons, List.mem_cons]
        by_cases h : k = a
        · subst h; simp
        · have hbeq : (k == a) = false := by simpa using h
          simp [hbeq, ih, h]

theorem lookup_eq_some_mem {α β : Type} [BEq α] [LawfulBEq α]
    {l : List (α × β)} {k : α} {v : β} (h : l.lookup k = some v) : (k, v) ∈ l := by
  induction l with
  | nil => simp [List.lookup] at h
  | cons p rest ih =>
      cases p with
      | mk a b =>
        simp only [List.lookup] at h
        by_cases hk : k = a
        · subst hk
          simp only [beq_self_eq_true] at h
          cases h
          exact List.mem_cons_self _ _
        · have hbeq : (k == a) = false := by simpa using hk
          rw [hbeq] at h
          exact List.mem_cons_of_mem _ (ih h)

/-- `foldlM` over `Except` collapses to a pure `foldl` when every step
succeeds. -/
theorem foldlM_of_pure {σ α ε : Type} (f : σ → α → Except ε σ) (g : σ → α → σ)
    (hf : ∀ st x, f st x = .ok (g st x)) :
    ∀ (l : List α) (st : σ), l.foldlM f st = .ok (l.foldl g st) := by
  intro l
  induction l with
  | nil => intro st; rfl
  | cons x rest ih =>
      intro st
      simp only [List.foldlM, List.foldl, hf st x]
      exact ih (g st x)

theorem scanStep_eq_pure (st : ScanState) (r : TcRow) :
    scanStep st r = .ok (scanStepP st r) := by
  unfold scanStep scanStepP
  dsimp only
  by_cases h : r.name = "" ∨ (st.by_name.lookup r.name).isSome
  · simp only [h, if_pos]
  · have hname : ¬ r.name = "" := fun hn => h (Or.inl hn)
    have h2 : ¬ ((st.by_name.lookup r.name)).isSome := fun hc => h (Or.inr hc)
    simp [hname, h2]

theorem scanSnapshot_eq_pure (store : List TcRow) :
    scanSnapshot store =
      .ok (store.foldl scanStepP { maximal_rank := 0, by_name := [], leftover := [] }) :=
  foldlM_of_pure scanStep scanStepP scanStep_eq_pure store _

/-! ### Counting lemmas for the planner -/

theorem matchStep_length (st : MatchState) (ptc : ProblemTestCase) :
    (matchStep st ptc).matched.length + (matchStep st ptc).missing.length =
      st.matched.length + st.missing.length + 1 := by
  unfold matchStep
  cases h : st.by_name.lookup ptc.unique_name <;> simp <;> omega

theorem matchCases_foldl_length (desired : List ProblemTestCase) :
    ∀ st : MatchState,
      (desired.foldl matchStep st).matched.length +
        (desired.foldl matchStep st).missing.length =
      st.matched.length + st.missing.length + desired.length := by
  induction desired with
  | nil => intro st; simp
  | cons d rest ih =>
      intro st
      simp only [List.foldl_cons, List.length_cons]
      rw [ih (matchStep st d), matchStep_length]
      omega

theorem matchCases_length (desired : List ProblemTestCase)
    (by_name : List (String × DbTestCase)) :
    (matchCases desired by_name).matched.length +
      (matchCases desired by_name).missing.length = desired.length := by
  unfold matchCases
  rw [matchCases_foldl_length]
  simp

theorem matchedUpdStep_length (st : MatchedUpdState) (p : ProblemTestCase × DbTestCase) :
    (matchedUpdStep st p).matched.length = st.matched.length + 1 := by
  unfold matchedUpdStep
  dsimp only
  split <;> (try split) <;> (try split) <;> simp

theorem matchedUpdates_foldl_length (l : List (ProblemTestCase × DbTestCase)) :
    ∀ st : MatchedUpdState, (l.foldl matchedUpdStep st).matched.length =
      st.matched.length + l.length := by
  induction l with
  | nil => intro st; simp
  | cons p rest ih =>
      intro st
      simp only [List.foldl_cons, List.length_cons]
      rw [ih (matchedUpdStep st p), matchedUpdStep_length]
      omega

theorem matchedUpdates_length (store : List TcRow) (l : List (ProblemTestCase × DbTestCase)) :
    (matchedUpdates store l).matched.length = l.length := by
  unfold matchedUpdates
  rw [matchedUpdates_foldl_length]
  simp

theorem createStep_length (st : CreateState) (ptc : ProblemTestCase) :
    (createStep st ptc).created.length = st.created.length + 1 := by
  unfold createStep
  cases h : st.leftover.getLast? <;> simp [h]

theorem createCases_foldl_length (l : List ProblemTestCase) :
    ∀ st : CreateState, (l.foldl createStep st).created.length =
      st.created.length + l.length := by
  induction l with
  | nil => intro st; simp
  | cons p rest ih =>
      intro st
      simp only [List.foldl_cons, List.length_cons]
      rw [ih (createStep st p), createStep_length]
      omega

theorem createCases_length (store : List TcRow) (missing : List ProblemTestCase)
    (leftover : List DbTestCase) (mr nid : Nat) :
    (createCases store missing leftover mr nid).created.length = missing.length := by
  unfold createCases
  rw [createCases_foldl_length]
  simp

/-- The planner accounts for exactly one case per desired test case, so
the count check of line 302 always passes and `reconcilePrep` always
succeeds. -/
theorem reconcilePrep_ok (desired : List ProblemTestCase) (store : List TcRow)
    (nextId : Nat) :
    ∃ prep, reconcilePrep desired store nextId = .ok prep ∧
      prep.existing.length = desired.length := by
  unfold reconcilePrep
  rw [scanSnapshot_eq_pure]
  set scan := store.foldl scanStepP { maximal_rank := 0, by_name := [], leftover := [] }
  dsimp only
  set ms := matchCases desired scan.by_name with hms
  set mu := matchedUpdates store ms.matched with hmu
  set cs := createCases mu.store ms.missing (scan.leftover ++ ms.by_name.map (·.2))
    scan.maximal_rank nextId with hcs
  have hlen : (mu.matched ++ cs.created).length = desired.length := by
    rw [List.length_append, hmu, matchedUpdates_length, hcs, createCases_length]
    exact matchCases_length desired scan.by_name
  rw [if_neg (by rw [hlen]; exact fun hc => hc rfl)]
  exact ⟨_, rfl, hlen⟩

theorem reconcileTestCases_ok (desired : List ProblemTestCase) (store : List TcRow)
    (nextId : Nat) :
    ∃ res, reconcileTestCases desired store nextId = .ok res := by
  obtain ⟨prep, hprep, -⟩ := reconcilePrep_ok desired store nextId
  unfold reconcileTestCases
  rw [hprep]
  exact ⟨_, rfl⟩

/-- C9: for every desired test-case list and persisted snapshot the
planner routes each desired case to exactly one of matched/missing and
produces exactly one final-case entry per desired case, so the count
consistency check of line 302 passes and the fatal `countMismatch`
branch is unreachable: the reconciliation always returns a result. -/
theorem testcase_count_check_unreachable (desired : List ProblemTestCase)
    (store : List TcRow) (nextId : Nat) :
    (∀ by_name, (matchCases desired by_name).matched.length +
        (matchCases desired by_name).missing.length = desired.length) ∧
    (∃ prep, reconcilePrep desired store nextId = .ok prep ∧
        prep.existing.length = desired.length) ∧
    (∃ res, reconcileTestCases desired store nextId = .ok res) := by
  exact ⟨fun bn => matchCases_length desired bn,
    reconcilePrep_ok desired store nextId,
    reconcileTestCases_ok desired store nextId⟩

/-! ### Duplicate persisted names (C2) -/

/-- C8: the statement of line 240 is
`UPDATE testcase SET description = ? WHERE testcaseid = ?` but its bound
parameters are `(database_case.case_id, description)` — swapped.  At the
failing input (matched row id 7 storing description "old", desired
description "new") the executed write carries the row id as the SET value
and the description as the WHERE key, so the matched row's stored
description remains "old" instead of becoming "new" as the surrounding
code (and the in-memory mirror assignment of line 242) intends. -/
theorem description_update_swapped_parameters_bug :
    ∃ res,
      reconcileTestCases [⟨"t1", some "new", "i", "o", false, none⟩]
        [{ id := 7, name := "t1", description := some "old", rank := 1, input_md5 := "i",
           output_md5 := "o", sample := false, image_type := none, deleted := false,
           hasContent := true, hasImage := false }] 100 = .ok res ∧
      TcEvent.updateDescription 7 (some "new") ∈ res.events ∧
      res.store.map (fun r => (r.id, r.description)) = [(7, some "old")] := by
  refine ⟨_, rfl, ?_, ?_⟩ <;> decide

theorem createCases_foldl_spec (M : List ProblemTestCase) :
    ∀ st : CreateState,
      (M.foldl createStep st).events = st.events ++
          (recycleEventsFor M st.leftover ++
            insertEventsFrom (M.drop st.leftover.length) st.maximal_rank st.nextId) ∧
      (M.foldl createStep st).leftover =
        st.leftover.take (st.leftover.length - M.length) ∧
      (M.foldl createStep st).created = st.created ++
        (recycledPairsFor M st.leftover ++
          insertedPairsFrom (M.drop st.leftover.length) st.maximal_rank st.nextId) ∧
      (M.foldl createStep st).store = applyTcEvents st.store
        (recycleEventsFor M st.leftover ++
          insertEventsFrom (M.drop st.leftover.length) st.maximal_rank st.nextId) ∧
      (M.foldl createStep st).nextId =
        st.nextId + (M.length - st.leftover.length) ∧
      (M.foldl createStep st).maximal_rank =
        st.maximal_rank + (M.length - st.leftover.length) := by
  induction M with
  | nil =>
      intro st
      simp [recycleEventsFor, recycledPairsFor, insertEventsFrom, insertedPairsFrom,
        applyTcEvents]
  | cons m M ih =>
      intro st
      match hL : st.leftover.getLast? with
      | some c =>
          have hsplit : st.leftover.dropLast ++ [c] = st.leftover :=
            List.dropLast_append_getLast? c (Option.mem_def.mpr hL)
          have hrev : st.leftover.reverse = c :: st.leftover.dropLast.reverse := by
            conv_lhs => rw [← hsplit]
            simp
          have hlen : st.leftover.length = st.leftover.dropLast.length + 1 := by
            conv_lhs => rw [← hsplit]
            simp
          have hstep : createStep st m =
              { store := applyTcEvent st.store (.recycleUpdate c.case_id m.unique_name
                  (truncateDescription m.description) m.input_md5 m.output_md5 m.sample
                  m.image_extension),
                events := st.events ++ [.recycleUpdate c.case_id m.unique_name
                  (truncateDescription m.description) m.input_md5 m.output_md5 m.sample
                  m.image_extension],
                leftover := st.leftover.dropLast,
                maximal_rank := st.maximal_rank, nextId := st.nextId,
                created := st.created ++
                  [(m, ⟨c.case_id, m.unique_name, m.description, c.rank,
                        m.input_md5, m.output_md5⟩)] } := by
            unfold createStep
            rw [hL]
          obtain ⟨h1, h2, h3, h4, h5, h6⟩ := ih (createStep st m)
          rw [hstep] at h1 h2 h3 h4 h5 h6
          dsimp only at h1 h2 h3 h4 h5 h6
          simp only [List.foldl_cons, hstep]
          have hrecEv : recycleEventsFor (m :: M) st.leftover =
              (.recycleUpdate c.case_id m.unique_name (truncateDescription m.description)
                m.input_md5 m.output_md5 m.sample m.image_extension) ::
              recycleEventsFor M st.leftover.dropLast := by
            unfold recycleEventsFor
            rw [hrev]
            simp
          have hdropEq : (m :: M).drop st.leftover.length =
              M.drop st.leftover.dropLast.length := by
            rw [hlen]
            simp
          have hpairs : recycledPairsFor (m :: M) st.leftover =
              (m, ⟨c.case_id, m.unique_name, m.description, c.rank,
                   m.input_md5, m.output_md5⟩) ::
              recycledPairsFor M st.leftover.dropLast := by
            unfold recycledPairsFor
            rw [hrev]
            simp
          refine ⟨?_, ?_, ?_, ?_, ?_, ?_⟩
          · rw [h1, hrecEv, hdropEq]
            simp
          · rw [h2]
            rw [List.dropLast_eq_take, List.take_take, List.length_cons, hlen]
            congr 1
            simp only [List.length_take]
            omega
          · rw [h3, hpairs, hdropEq]
            simp
          · rw [h4, hrecEv, hdropEq]
            unfold applyTcEvents
            simp
          · rw [h5, hlen]
            simp only [List.length_cons]
            omega
          · rw [h6, hlen]
            simp only [List.length_cons]
            omega
      | none =>
          have hnil : st.leftover = [] := by
            cases hl : st.leftover with
            | nil => rfl
            | cons x xs =>
                have hgl := List.getLast?_eq_getLast_of_ne_nil
                  (l := x :: xs) (by simp)
                rw [hl] at hL
                rw [hgl] at hL
                simp at hL
          have hstep : createStep st m =
              { store := applyTcEvent st.store (.insertCase st.nextId m.unique_name
                  (truncateDescription m.description) m.input_md5 m.output_md5 m.sample
                  m.image_extension (st.maximal_rank + 1)),
                events := st.events ++ [.insertCase st.nextId m.unique_name
                  (truncateDescription m.description) m.input_md5 m.output_md5 m.sample
                  m.image_extension (st.maximal_rank + 1)],
                leftover := st.leftover,
                maximal_rank := st.maximal_rank + 1, nextId := st.nextId + 1,
                created := st.created ++
                  [(m, ⟨st.nextId, m.unique_name, m.description, st.maximal_rank + 1,
                        m.input_md5, m.output_md5⟩)] } := by
            unfold createStep
            rw [hL]
          obtain ⟨h1, h2, h3, h4, h5, h6⟩ := ih (createStep st m)
          rw [hstep] at h1 h2 h3 h4 h5 h6
          dsimp only at h1 h2 h3 h4 h5 h6
          simp only [List.foldl_cons, hstep]
          rw [hnil] at h1 h2 h3 h4 h5 h6 ⊢
          have hrecNil : ∀ M2 : List ProblemTestCase, recycleEventsFor M2 [] = [] := by
            intro M2
            unfold recycleEventsFor
            simp
          have hpairNil : ∀ M2 : List ProblemTestCase, recycledPairsFor M2 [] = [] := by
            intro M2
            unfold recycledPairsFor
            simp
          refine ⟨?_, ?_, ?_, ?_, ?_, ?_⟩
          · rw [h1, hrecNil, hrecNil]
            simp [insertEventsFrom]
          · rw [h2]
            simp
          · rw [h3, hpairNil, hpairNil]
            simp [insertedPairsFrom]
          · rw [h4, hrecNil, hrecNil]
            unfold applyTcEvents
            simp [insertEventsFrom]
          · rw [h5]
            simp only [List.length_nil, List.length_cons, List.drop_nil]
            omega
          · rw [h6]
            simp only [List.length_nil, List.length_cons, List.drop_nil]
            omega

/-! ### Event kinds and (id, rank) frame lemmas -/

theorem applyTcEvent_updateDescription_id_rank (s : List TcRow) (a : Nat) (b : Option String) :
    ((applyTcEvent s (.updateDescription a b)).map fun r => (r.id, r.rank)) =
      s.map fun r => (r.id, r.rank) := by
  unfold applyTcEvent
  rw [List.map_map]
  apply List.map_congr_left
  intro r _
  by_cases h : mysqlIdMatchesDesc r.id b <;> simp [h, Function.comp]

theorem applyTcEvent_updateHashes_id_rank (s : List TcRow) (a : Nat) (b c : String) :
    ((applyTcEvent s (.updateHashes a b c)).map fun r => (r.id, r.rank)) =
      s.map fun r => (r.id, r.rank) := by
  unfold applyTcEvent
  rw [List.map_map]
  apply List.map_congr_left
  intro r _
  by_cases h : r.id = a <;> simp [h, Function.comp]

theorem applyTcEvent_recycle_id_rank (s : List TcRow) (id : Nat) (n : String)
    (d : Option String) (i o : String) (sp : Bool) (im : Option String) :
    ((applyTcEvent s (.recycleUpdate id n d i o sp im)).map fun r => (r.id, r.rank)) =
      s.map fun r => (r.id, r.rank) := by
  unfold applyTcEvent
  rw [List.map_map]
  apply List.map_congr_left
  intro r _
  by_cases h : r.id = id <;> simp [h, Function.comp]

theorem applyTcEvent_recycle_overwrites (s : List TcRow) (id : Nat) (n : String)
    (d : Option String) (i o : String) (sp : Bool) (im : Option String) :
    ∀ r ∈ s, r.id = id →
      { r with name := n, description := d, input_md5 := i, output_md5 := o,
               sample := sp, image_type := im, deleted := false } ∈
        applyTcEvent s (.recycleUpdate id n d i o sp im) := by
  intro r hr hid
  unfold applyTcEvent
  refine List.mem_map.mpr ⟨r, hr, ?_⟩
  rw [if_pos hid]

/-- Which events the matched-case update loop can emit. -/
theorem matchedUpdStep_events (st : MatchedUpdState) (p : ProblemTestCase × DbTestCase) :
    ∃ tail, (matchedUpdStep st p).events = st.events ++ tail ∧
      ∀ e ∈ tail, (∃ a b, e = TcEvent.updateDescription a b) ∨
        (∃ a b c, e = TcEvent.updateHashes a b c) := by
  unfold matchedUpdStep
  dsimp only
  by_cases hd : truncateDescription p.1.description ≠ p.2.description
  · rw [if_pos hd, if_pos hd]
    split
    · split
      · refine ⟨[TcEvent.updateDescription p.2.case_id (truncateDescription p.1.description),
            TcEvent.updateHashes p.2.case_id p.1.input_md5 p.1.output_md5], ?_, ?_⟩
        · dsimp only
          rw [List.append_assoc]
          rfl
        · intro e he
          simp only [List.mem_cons, List.mem_singleton, List.not_mem_nil, or_false] at he
          rcases he with he | he
          · exact Or.inl ⟨_, _, he⟩
          · exact Or.inr ⟨_, _, _, he⟩
      · refine ⟨[TcEvent.updateDescription p.2.case_id (truncateDescription p.1.description)],
            rfl, ?_⟩
        intro e he
        simp only [List.mem_singleton] at he
        exact Or.inl ⟨_, _, he⟩
    · refine ⟨[TcEvent.updateDescription p.2.case_id (truncateDescription p.1.description)],
          rfl, ?_⟩
      intro e he
      simp only [List.mem_singleton] at he
      exact Or.inl ⟨_, _, he⟩
  · rw [if_neg hd, if_neg hd]
    split
    · split
      · refine ⟨[TcEvent.updateHashes p.2.case_id p.1.input_md5 p.1.output_md5], rfl, ?_⟩
        intro e he
        simp only [List.mem_singleton] at he
        exact Or.inr ⟨_, _, _, he⟩
      · exact ⟨[], by simp, by intro e he; simp at he⟩
    · exact ⟨[], by simp, by intro e he; simp at he⟩

theorem reconcilePrep_eq_pure (desired : List ProblemTestCase) (store : List TcRow)
    (nextId : Nat) :
    reconcilePrep desired store nextId = .ok (reconcilePrepP desired store nextId) := by
  unfold reconcilePrep reconcilePrepP
  rw [scanSnapshot_eq_pure]
  set scan := store.foldl scanStepP { maximal_rank := 0, by_name := [], leftover := [] }
  dsimp only
  set ms := matchCases desired scan.by_name with hms
  set mu := matchedUpdates store ms.matched with hmu
  set cs := createCases mu.store ms.missing (scan.leftover ++ ms.by_name.map (·.2))
    scan.maximal_rank nextId with hcs
  have hlen : (mu.matched ++ cs.created).length = desired.length := by
    rw [List.length_append, hmu, matchedUpdates_length, hcs, createCases_length]
    exact matchCases_length desired scan.by_name
  rw [if_neg (by rw [hlen]; exact fun hc => hc rfl)]
  by_cases hemp : cs.leftover.isEmpty <;> simp [hemp, applyTcEvents]

theorem reconcileTestCases_eq_pure (desired : List ProblemTestCase) (store : List TcRow)
    (nextId : Nat) :
    reconcileTestCases desired store nextId = .ok (reconcileTestCasesP desired store nextId) := by
  unfold reconcileTestCases reconcileTestCasesP
  rw [reconcilePrep_eq_pure]
  dsimp only
  by_cases himg : (casesWithoutImageIds (reconcilePrepP desired store nextId).existing).isEmpty <;>
    simp [himg, applyTcEvents]

/-! ### Frame facts for the matched-case update loop -/

theorem matchedUpdStep_frame (st : MatchedUpdState) (p : ProblemTestCase × DbTestCase) :
    ((matchedUpdStep st p).store.map fun r => (r.id, r.rank)) =
      (st.store.map fun r => (r.id, r.rank)) ∧
    ((matchedUpdStep st p).matched.map fun q => (q.2.case_id, q.2.rank)) =
      (st.matched.map fun q => (q.2.case_id, q.2.rank)) ++ [(p.2.case_id, p.2.rank)] := by
  unfold matchedUpdStep
  dsimp only
  by_cases hd : truncateDescription p.1.description ≠ p.2.description
  · rw [if_pos hd, if_pos hd]
    split
    · split
      · constructor
        · dsimp only
          rw [applyTcEvent_updateHashes_id_rank, applyTcEvent_updateDescription_id_rank]
        · simp
      · constructor
        · dsimp only
          rw [applyTcEvent_updateDescription_id_rank]
        · simp
    · constructor
      · dsimp only
        rw [applyTcEvent_updateDescription_id_rank]
      · simp
  · rw [if_neg hd, if_neg hd]
    split
    · split
      · constructor
        · dsimp only
          rw [applyTcEvent_updateHashes_id_rank]
        · simp
      · exact ⟨rfl, by simp⟩
    · exact ⟨rfl, by simp⟩

theorem matchedUpdates_foldl_frame (l : List (ProblemTestCase × DbTestCase)) :
    ∀ st : MatchedUpdState,
      ((l.foldl matchedUpdStep st).store.map fun r => (r.id, r.rank)) =
        (st.store.map fun r => (r.id, r.rank)) ∧
      ((l.foldl matchedUpdStep st).matched.map fun q => (q.2.case_id, q.2.rank)) =
        (st.matched.map fun q => (q.2.case_id, q.2.rank)) ++
          (l.map fun q => (q.2.case_id, q.2.rank)) ∧
      (∃ tail, (l.foldl matchedUpdStep st).events = st.events ++ tail ∧
        ∀ e ∈ tail, (∃ a b, e = TcEvent.updateDescription a b) ∨
          (∃ a b c, e = TcEvent.updateHashes a b c)) := by
  induction l with
  | nil => intro st; exact ⟨rfl, by simp, ⟨[], by simp, by intro e he; simp at he⟩⟩
  | cons p rest ih =>
      intro st
      obtain ⟨h1, h2, h3⟩ := ih (matchedUpdStep st p)
      obtain ⟨g1, g2⟩ := matchedUpdStep_frame st p
      obtain ⟨t0, ht0, ht0k⟩ := matchedUpdStep_events st p
      refine ⟨?_, ?_, ?_⟩
      · rw [List.foldl_cons]
        exact h1.trans g1
      · rw [List.foldl_cons, h2, g2]
        simp
      · obtain ⟨t1, ht1, ht1k⟩ := h3
        refine ⟨t0 ++ t1, ?_, ?_⟩
        · rw [List.foldl_cons, ht1, ht0, List.append_assoc]
        · intro e he
          rcases List.mem_append.mp he with he | he
          · exact ht0k e he
          · exact ht1k e he

/-! ### Replay lemmas for the recycle and insert traces -/

theorem applyTcEvents_id_rank_preserve (es : List TcEvent)
    (h : ∀ e ∈ es, ∀ s : List TcRow,
      ((applyTcEvent s e).map fun r => (r.id, r.rank)) = s.map fun r => (r.id, r.rank)) :
    ∀ s : List TcRow,
      ((applyTcEvents s es).map fun r => (r.id, r.rank)) = s.map fun r => (r.id, r.rank) := by
  induction es with
  | nil => intro s; rfl
  | cons e rest ih =>
      intro s
      unfold applyTcEvents at *
      rw [List.foldl_cons]
      rw [ih (fun e2 he2 => h e2 (List.mem_cons_of_mem _ he2)) (applyTcEvent s e)]
      exact h e (List.mem_cons_self _ _) s

theorem recycleEventsFor_id_rank (M : List ProblemTestCase) (L : List DbTestCase)
    (s : List TcRow) :
    ((applyTcEvents s (recycleEventsFor M L)).map fun r => (r.id, r.rank)) =
      s.map fun r => (r.id, r.rank) := by
  apply applyTcEvents_id_rank_preserve
  intro e he s2
  unfold recycleEventsFor at he
  obtain ⟨mc, -, rfl⟩ := List.mem_map.mp he
  exact applyTcEvent_recycle_id_rank _ _ _ _ _ _ _ _

theorem applyTcEvents_insertEventsFrom (M : List ProblemTestCase) :
    ∀ (mr nid : Nat) (s : List TcRow),
      ((applyTcEvents s (insertEventsFrom M mr nid)).map fun r => (r.id, r.rank)) =
        (s.map fun r => (r.id, r.rank)) ++ insertedIdRanks M mr nid := by
  induction M with
  | nil => intro mr nid s; simp [insertEventsFrom, insertedIdRanks, applyTcEvents]
  | cons m M ih =>
      intro mr nid s
      unfold insertEventsFrom insertedIdRanks applyTcEvents
      rw [List.foldl_cons]
      have := ih (mr + 1) (nid + 1) (applyTcEvent s (.insertCase nid m.unique_name
        (truncateDescription m.description) m.input_md5 m.output_md5 m.sample
        m.image_extension (mr + 1)))
      unfold applyTcEvents at this
      rw [this]
      unfold applyTcEvent
      simp

theorem insertedIdRanks_bounds (M : List ProblemTestCase) :
    ∀ (mr nid : Nat), ∀ x ∈ insertedIdRanks M mr nid,
      mr < x.2 ∧ x.2 ≤ mr + M.length ∧ nid ≤ x.1 ∧ x.1 < nid + M.length := by
  induction M with
  | nil => intro mr nid x hx; simp [insertedIdRanks] at hx
  | cons m M ih =>
      intro mr nid x hx
      unfold insertedIdRanks at hx
      rcases List.mem_cons.mp hx with rfl | hx
      · simp
      · obtain ⟨h1, h2, h3, h4⟩ := ih (mr + 1) (nid + 1) x hx
        simp only [List.length_cons]
        omega

theorem insertedIdRanks_snd_nodup (M : List ProblemTestCase) :
    ∀ (mr nid : Nat), ((insertedIdRanks M mr nid).map (·.2)).Nodup := by
  induction M with
  | nil => intro mr nid; simp [insertedIdRanks]
  | cons m M ih =>
      intro mr nid
      unfold insertedIdRanks
      rw [List.map_cons, List.nodup_cons]
      refine ⟨?_, ih (mr + 1) (nid + 1)⟩
      intro hmem
      obtain ⟨x, hx, hx2⟩ := List.mem_map.mp hmem
      have := (insertedIdRanks_bounds M (mr + 1) (nid + 1) x hx).1
      omega

theorem insertedIdRanks_fst_nodup (M : List ProblemTestCase) :
    ∀ (mr nid : Nat), ((insertedIdRanks M mr nid).map (·.1)).Nodup := by
  induction M with
  | nil => intro mr nid; simp [insertedIdRanks]
  | cons m M ih =>
      intro mr nid
      unfold insertedIdRanks
      rw [List.map_cons, List.nodup_cons]
      refine ⟨?_, ih (mr + 1) (nid + 1)⟩
      intro hmem
      obtain ⟨x, hx, hx2⟩ := List.mem_map.mp hmem
      have := (insertedIdRanks_bounds M (mr + 1) (nid + 1) x hx).2.2.1
      omega

/-! ### The scan's maximal rank bounds every snapshot rank -/

theorem scanStepP_maximal (st : ScanState) (r : TcRow) :
    (scanStepP st r).maximal_rank = max st.maximal_rank r.rank := by
  unfold scanStepP
  dsimp only
  split <;> rfl

theorem scanFold_maximal_ge (store : List TcRow) :
    ∀ st : ScanState, st.maximal_rank ≤ (store.foldl scanStepP st).maximal_rank ∧
      ∀ r ∈ store, r.rank ≤ (store.foldl scanStepP st).maximal_rank := by
  induction store with
  | nil => intro st; exact ⟨Nat.le_refl _, by intro r hr; simp at hr⟩
  | cons q rest ih =>
      intro st
      rw [List.foldl_cons]
      obtain ⟨h1, h2⟩ := ih (scanStepP st q)
      rw [scanStepP_maximal] at h1
      constructor
      · exact le_trans (Nat.le_max_left _ _) h1
      · intro r hr
        rcases List.mem_cons.mp hr with rfl | hr
        · exact le_trans (Nat.le_max_right _ _) h1
        · exact h2 r hr

/-! ### Frame of the deletion and content events -/

theorem applyTcEvent_deleteContent_id_rank (s : List TcRow) (ids : List Nat) :
    ((applyTcEvent s (.deleteContent ids)).map fun r => (r.id, r.rank)) =
      s.map fun r => (r.id, r.rank) := by
  unfold applyTcEvent
  rw [List.map_map]
  apply List.map_congr_left
  intro r _
  by_cases h : r.id ∈ ids <;> simp [h, Function.comp]

theorem applyTcEvent_deleteCases_id_rank_sublist (s : List TcRow) (ids : List Nat) :
    ((applyTcEvent s (.deleteCases ids)).map fun r => (r.id, r.rank)).Sublist
      (s.map fun r => (r.id, r.rank)) := by
  unfold applyTcEvent
  exact (List.filter_sublist s).map _

theorem applyTcEvents_append (s : List TcRow) (a b : List TcEvent) :
    applyTcEvents s (a ++ b) = applyTcEvents (applyTcEvents s a) b :=
  List.foldl_append applyTcEvent s a b

/-- Wrapper of `matchedUpdates_foldl_frame` at the loop's initial state. -/
theorem matchedUpdates_frame (store : List TcRow) (l : List (ProblemTestCase × DbTestCase)) :
    ((matchedUpdates store l).store.map fun r => (r.id, r.rank)) =
      (store.map fun r => (r.id, r.rank)) ∧
    ((matchedUpdates store l).matched.map fun q => (q.2.case_id, q.2.rank)) =
      (l.map fun q => (q.2.case_id, q.2.rank)) ∧
    (∀ e ∈ (matchedUpdates store l).events,
        (∃ a b, e = TcEvent.updateDescription a b) ∨
          (∃ a b c, e = TcEvent.updateHashes a b c)) := by
  unfold matchedUpdates
  obtain ⟨h1, h2, h3⟩ := matchedUpdates_foldl_frame l
    { store := store, events := [], matched := [], upd_content := [] }
  refine ⟨h1, by simpa using h2, ?_⟩
  obtain ⟨tail, ht, htk⟩ := h3
  intro e he
  rw [ht] at he
  simp only [List.nil_append] at he
  exact htk e he

/-- Wrapper of `createCases_foldl_spec` at the loop's initial state. -/
theorem createCases_spec (store : List TcRow) (M : List ProblemTestCase)
    (L : List DbTestCase) (mr nid : Nat) :
    (createCases store M L mr nid).events =
        recycleEventsFor M L ++ insertEventsFrom (M.drop L.length) mr nid ∧
    (createCases store M L mr nid).leftover = L.take (L.length - M.length) ∧
    (createCases store M L mr nid).created =
        recycledPairsFor M L ++ insertedPairsFrom (M.drop L.length) mr nid ∧
    (createCases store M L mr nid).store =
        applyTcEvents store
          (recycleEventsFor M L ++ insertEventsFrom (M.drop L.length) mr nid) := by
  unfold createCases
  obtain ⟨h1, h2, h3, h4, -, -⟩ := createCases_foldl_spec M
    { store := store, events := [], leftover := L, maximal_rank := mr, nextId := nid,
      created := [] }
  exact ⟨by simpa using h1, h2, by simpa using h3, h4⟩

theorem insertEventsFrom_not_rank (M : List ProblemTestCase) :
    ∀ (mr nid : Nat), ∀ e ∈ insertEventsFrom M mr nid, ∀ a b,
      e ≠ TcEvent.updateRank a b := by
  induction M with
  | nil => intro mr nid e he; simp [insertEventsFrom] at he
  | cons m M ih =>
      intro mr nid e he a b
      unfold insertEventsFrom at he
      rcases List.mem_cons.mp he with rfl | he
      · intro hc; cases hc
      · exact ih (mr + 1) (nid + 1) e he a b

theorem rank_map_eq_snd_of_idrank (s : List TcRow) :
    s.map (·.rank) = (s.map fun r => (r.id, r.rank)).map Prod.snd := by
  rw [List.map_map]
  rfl

/-- C10: every write of the matching and recycling phases — the
(swapped-parameter) description update and the hash update on matched
rows, and the recycling UPDATE on leftover rows — leaves every row's id
and rank column unchanged; no rank write occurs before the
rank-reassignment phase; and consequently, for a snapshot with pairwise
distinct ranks, the live rows still have pairwise distinct ranks when
that phase starts. -/
theorem match_recycle_writes_preserve_id_rank (desired : List ProblemTestCase)
    (store : List TcRow) (nextId : Nat)
    (hrk : (store.map (·.rank)).Nodup) :
    (∀ s a b, ((applyTcEvent s (.updateDescription a b)).map fun r => (r.id, r.rank)) =
        s.map fun r => (r.id, r.rank)) ∧
    (∀ s a b c, ((applyTcEvent s (.updateHashes a b c)).map fun r => (r.id, r.rank)) =
        s.map fun r => (r.id, r.rank)) ∧
    (∀ s a n d i o sp im,
        ((applyTcEvent s (.recycleUpdate a n d i o sp im)).map fun r => (r.id, r.rank)) =
          s.map fun r => (r.id, r.rank)) ∧
    (∀ e ∈ (reconcilePrepP desired store nextId).events, ∀ a b,
        e ≠ TcEvent.updateRank a b) ∧
    ((reconcilePrepP desired store nextId).store.map (·.rank)).Nodup := by
  refine ⟨fun s a b => applyTcEvent_updateDescription_id_rank s a b,
    fun s a b c => applyTcEvent_updateHashes_id_rank s a b c,
    fun s a n d i o sp im => applyTcEvent_recycle_id_rank s a n d i o sp im, ?_, ?_⟩
  all_goals
    unfold reconcilePrepP
    dsimp only
    set scan := store.foldl scanStepP { maximal_rank := 0, by_name := [], leftover := [] }
      with hscanDef
    set ms := matchCases desired scan.by_name with hmsDef
    set L := scan.leftover ++ ms.by_name.map (·.2) with hLDef
    obtain ⟨hmuStore, -, hmuEvents⟩ := matchedUpdates_frame store ms.matched
    obtain ⟨hcsEvents, hcsLeft, -, hcsStore⟩ :=
      createCases_spec (matchedUpdates store ms.matched).store ms.missing L
        scan.maximal_rank nextId
  · -- no rank write before the rank phase
    intro e he a b
    rw [hcsEvents] at he
    rcases List.mem_append.mp he with he | he
    · rcases List.mem_append.mp he with he | he
      · rcases hmuEvents e he with ⟨x, y, rfl⟩ | ⟨x, y, z, rfl⟩ <;> (intro hc; cases hc)
      · rcases List.mem_append.mp he with he | he
        · unfold recycleEventsFor at he
          obtain ⟨mc, -, rfl⟩ := List.mem_map.mp he
          intro hc; cases hc
        · exact insertEventsFrom_not_rank _ _ _ e he a b
    · split at he
      · simp at he
      · rcases (by simpa using he : _ ∨ _) with rfl | rfl <;> (intro hc; cases hc)
  · -- ranks of the live rows are still pairwise distinct
    have hcsRanks :
        ((createCases (matchedUpdates store ms.matched).store ms.missing L
            scan.maximal_rank nextId).store.map (·.rank)).Nodup := by
      rw [rank_map_eq_snd_of_idrank, hcsStore, applyTcEvents_append,
        applyTcEvents_insertEventsFrom, recycleEventsFor_id_rank, hmuStore,
        List.map_append, ← rank_map_eq_snd_of_idrank]
      refine List.Nodup.append hrk (insertedIdRanks_snd_nodup _ _ _) ?_
      intro x hx hx2
      obtain ⟨r, hr, rfl⟩ := List.mem_map.mp hx
      obtain ⟨p, hp, hp2⟩ := List.mem_map.mp hx2
      have hle := (scanFold_maximal_ge store
        { maximal_rank := 0, by_name := [], leftover := [] }).2 r hr
      have hgt := (insertedIdRanks_bounds _ _ _ p hp).1
      rw [← hscanDef] at hle
      omega
    split
    · exact hcsRanks
    · set cstore := (createCases (matchedUpdates store ms.matched).store
        ms.missing L scan.maximal_rank nextId).store with hcstoreDef
      set ids := (createCases (matchedUpdates store ms.matched).store
        ms.missing L scan.maximal_rank nextId).leftover.map (·.case_id) with hidsDef
      have hsteps : applyTcEvents cstore
          [TcEvent.deleteContent ids, TcEvent.deleteCases ids] =
          applyTcEvent (applyTcEvent cstore (.deleteContent ids)) (.deleteCases ids) := rfl
      rw [hsteps]
      have hsub : ((applyTcEvent (applyTcEvent cstore (.deleteContent ids))
          (.deleteCases ids)).map (·.rank)).Sublist
          ((applyTcEvent cstore (.deleteContent ids)).map (·.rank)) := by
        rw [rank_map_eq_snd_of_idrank, rank_map_eq_snd_of_idrank]
        exact (applyTcEvent_deleteCases_id_rank_sublist _ _).map _
      have hpres : ((applyTcEvent cstore (.deleteContent ids)).map (·.rank)) =
          cstore.map (·.rank) := by
        rw [rank_map_eq_snd_of_idrank, applyTcEvent_deleteContent_id_rank,
          ← rank_map_eq_snd_of_idrank]
      exact ((hpres ▸ hsub).nodup hcsRanks : _)

theorem match_recycle_writes_preserve_id_rank_witness :
    (([{ id := 3, name := "a", description := none, rank := 2, input_md5 := "x",
         output_md5 := "y", sample := false, image_type := none, deleted := false,
         hasContent := true, hasImage := false },
       { id := 4, name := "b", description := none, rank := 1, input_md5 := "x",
         output_md5 := "y", sample := false, image_type := none, deleted := false,
         hasContent := true, hasImage := false }].map (TcRow.rank)).Nodup) ∧
    ((reconcilePrepP [⟨"b", none, "x", "y", false, none⟩]
        [{ id := 3, name := "a", description := none, rank := 2, input_md5 := "x",
           output_md5 := "y", sample := false, image_type := none, deleted := false,
           hasContent := true, hasImage := false },
         { id := 4, name := "b", description := none, rank := 1, input_md5 := "x",
           output_md5 := "y", sample := false, image_type := none, deleted := false,
           hasContent := true, hasImage := false }] 9).store.map (TcRow.rank)).Nodup :=
  ⟨by decide,
   (match_recycle_writes_preserve_id_rank [⟨"b", none, "x", "y", false, none⟩]
      [{ id := 3, name := "a", description := none, rank := 2, input_md5 := "x",
         output_md5 := "y", sample := false, image_type := none, deleted := false,
         hasContent := true, hasImage := false },
       { id := 4, name := "b", description := none, rank := 1, input_md5 := "x",
         output_md5 := "y", sample := false, image_type := none, deleted := false,
         hasContent := true, hasImage := false }] 9 (by decide)).2.2.2.2⟩

/-! ### The orphan recycler (C7) -/

theorem insertEventsFrom_not_deleteCases (M : List ProblemTestCase) :
    ∀ (mr nid : Nat), ∀ e ∈ insertEventsFrom M mr nid, ∀ l,
      e ≠ TcEvent.deleteCases l := by
  induction M with
  | nil => intro mr nid e he; simp [insertEventsFrom] at he
  | cons m M ih =>
      intro mr nid e he l
      unfold insertEventsFrom at he
      rcases List.mem_cons.mp he with rfl | he
      · intro hc; cases hc
      · exact ih (mr + 1) (nid + 1) e he l

/-- C7: the recycle loop pairs each missing desired case with the row
popped from the end of the leftover list until either side is
exhausted (`recycleEventsFor` zips the missing cases with the reversed
leftovers); each reused pair is a single in-place UPDATE that overwrites
the row's key, hashes and metadata and clears the soft-deleted flag
while preserving the row's id and rank; missing cases remaining after
exhaustion become inserts, leftover rows remaining are deleted, and the
child `testcase_content` deletion precedes the parent row deletion. -/
theorem orphan_recycle_pairing_and_deletion_order (store snapshot : List TcRow)
    (missing desired : List ProblemTestCase) (leftover : List DbTestCase)
    (mr nid nid2 : Nat) :
    (createCases store missing leftover mr nid).events =
        recycleEventsFor missing leftover ++
          insertEventsFrom (missing.drop leftover.length) mr nid ∧
    (createCases store missing leftover mr nid).leftover =
        leftover.take (leftover.length - missing.length) ∧
    (createCases store missing leftover mr nid).created =
        recycledPairsFor missing leftover ++
          insertedPairsFrom (missing.drop leftover.length) mr nid ∧
    (∀ s a n d i o sp im,
        ((applyTcEvent s (.recycleUpdate a n d i o sp im)).map fun r => (r.id, r.rank)) =
          (s.map fun r => (r.id, r.rank)) ∧
        ∀ r ∈ s, r.id = a →
          { r with name := n, description := d, input_md5 := i, output_md5 := o,
                   sample := sp, image_type := im, deleted := false } ∈
            applyTcEvent s (.recycleUpdate a n d i o sp im)) ∧
    (∀ ids, TcEvent.deleteCases ids ∈ (reconcilePrepP desired snapshot nid2).events →
        ∃ front, (reconcilePrepP desired snapshot nid2).events =
          front ++ [TcEvent.deleteContent ids, TcEvent.deleteCases ids]) := by
  obtain ⟨c1, c2, c3, -⟩ := createCases_spec store missing leftover mr nid
  refine ⟨c1, c2, c3, ?_, ?_⟩
  · intro s a n d i o sp im
    exact ⟨applyTcEvent_recycle_id_rank s a n d i o sp im,
      applyTcEvent_recycle_overwrites s a n d i o sp im⟩
  · intro ids hmem
    unfold reconcilePrepP at hmem ⊢
    dsimp only at hmem ⊢
    set scan := snapshot.foldl scanStepP { maximal_rank := 0, by_name := [], leftover := [] }
    set ms := matchCases desired scan.by_name
    set L := scan.leftover ++ ms.by_name.map (·.2)
    obtain ⟨-, -, hmuEvents⟩ := matchedUpdates_frame snapshot ms.matched
    obtain ⟨hcsEvents, -, -, -⟩ :=
      createCases_spec (matchedUpdates snapshot ms.matched).store ms.missing L
        scan.maximal_rank nid2
    rcases List.mem_append.mp hmem with he | he
    · exfalso
      rcases List.mem_append.mp he with he | he
      · rcases hmuEvents _ he with ⟨x, y, hxy⟩ | ⟨x, y, z, hxy⟩ <;> cases hxy
      · rw [hcsEvents] at he
        rcases List.mem_append.mp he with he | he
        · unfold recycleEventsFor at he
          obtain ⟨mc, -, hmc⟩ := List.mem_map.mp he
          cases hmc
        · exact insertEventsFrom_not_deleteCases _ _ _ _ he ids rfl
    · split at he
      · simp at he
      · rcases List.mem_cons.mp he with hc | hc
        · cases hc
        · rcases List.mem_singleton.mp (by simpa using hc) with hc2
          cases hc2
          refine ⟨(matchedUpdates snapshot ms.matched).events ++
            (createCases (matchedUpdates snapshot ms.matched).store ms.missing L
              scan.maximal_rank nid2).events, ?_⟩
          rename_i hne
          rw [if_neg hne]

theorem orphan_recycle_pairing_and_deletion_order_witness :
    ((createCases [] [⟨"n1", none, "a", "b", false, none⟩, ⟨"n2", none, "c", "d", true, none⟩]
        [⟨5, "x", none, 1, "p", "q"⟩] 3 40).events =
      recycleEventsFor [⟨"n1", none, "a", "b", false, none⟩, ⟨"n2", none, "c", "d", true, none⟩]
          [⟨5, "x", none, 1, "p", "q"⟩] ++
        insertEventsFrom ([(⟨"n1", none, "a", "b", false, none⟩ : ProblemTestCase),
          ⟨"n2", none, "c", "d", true, none⟩].drop 1) 3 40) ∧
    (createCases [] [⟨"n1", none, "a", "b", false, none⟩, ⟨"n2", none, "c", "d", true, none⟩]
        [⟨5, "x", none, 1, "p", "q"⟩] 3 40).leftover = [] :=
  ⟨(orphan_recycle_pairing_and_deletion_order [] [] _ [] _ 3 40 0).1,
   by
    have h := (orphan_recycle_pairing_and_deletion_order [] []
      [⟨"n1", none, "a", "b", false, none⟩, ⟨"n2", none, "c", "d", true, none⟩] []
      [⟨5, "x", none, 1, "p", "q"⟩] 3 40 0).2.1
    rw [h]
    decide⟩

theorem applyRankWrites_nil (t : List TcRow) : applyRankWrites t [] = t := rfl

theorem applyRankWrites_cons (t : List TcRow) (w : Nat × Nat) (ws : List (Nat × Nat)) :
    applyRankWrites t (w :: ws) =
      applyRankWrites (applyTcEvent t (.updateRank w.1 w.2)) ws := rfl

theorem applyRankWrites_eq_map (ws : List (Nat × Nat)) :
    ∀ t : List TcRow, applyRankWrites t ws = t.map (applyWritesRow ws) := by
  induction ws with
  | nil =>
      intro t
      rw [applyRankWrites_nil]
      exact (List.map_id t).symm ▸ (by simp [applyWritesRow])
  | cons w ws ih =>
      intro t
      rw [applyRankWrites_cons, ih]
      unfold applyTcEvent
      rw [List.map_map]
      apply List.map_congr_left
      intro r _
      simp only [Function.comp, applyWritesRow, List.foldl_cons]

theorem applyWritesRow_append (a b : List (Nat × Nat)) (r : TcRow) :
    applyWritesRow (a ++ b) r = applyWritesRow b (applyWritesRow a r) :=
  List.foldl_append _ _ _ _

theorem applyWritesRow_id (ws : List (Nat × Nat)) :
    ∀ r : TcRow, (applyWritesRow ws r).id = r.id := by
  induction ws with
  | nil => intro r; rfl
  | cons w ws ih =>
      intro r
      unfold applyWritesRow
      rw [List.foldl_cons]
      by_cases h : r.id = w.1 <;> simp only [h, if_pos, if_neg, reduceIte] <;>
        [exact (ih _).trans (by simp [h]); exact ih r]

theorem applyWritesRow_not_mem (ws : List (Nat × Nat)) :
    ∀ r : TcRow, r.id ∉ ws.map (·.1) → applyWritesRow ws r = r := by
  induction ws with
  | nil => intro r _; rfl
  | cons w ws ih =>
      intro r hr
      unfold applyWritesRow
      rw [List.foldl_cons, if_neg (by intro hc; exact hr (by simp [hc]))]
      exact ih r fun hc => hr (List.mem_cons_of_mem _ hc)

theorem applyWritesRow_lookup (ws : List (Nat × Nat)) :
    ∀ r : TcRow, (ws.map (·.1)).Nodup →
      applyWritesRow ws r =
        match ws.lookup r.id with
        | some v => { r with rank := v }
        | none => r := by
  induction ws with
  | nil => intro r _; rfl
  | cons w ws ih =>
      intro r hnd
      rw [List.map_cons, List.nodup_cons] at hnd
      unfold applyWritesRow
      rw [List.foldl_cons]
      by_cases h : r.id = w.1
      · rw [if_pos h]
        have hnotin : ({ r with rank := w.2 } : TcRow).id ∉ ws.map (·.1) := by
          simpa [h] using hnd.1
        have := applyWritesRow_not_mem ws { r with rank := w.2 } hnotin
        unfold applyWritesRow at this
        rw [this, List.lookup, h]
        simp
      · rw [if_neg h]
        have := ih r hnd.2
        unfold applyWritesRow at this
        rw [this, List.lookup]
        have hbeq : (r.id == w.1) = false := by simpa using h
        rw [hbeq]

theorem rankWritesSafe_append (a : List (Nat × Nat)) :
    ∀ (b : List (Nat × Nat)) (t : List TcRow),
      rankWritesSafe t (a ++ b) =
        (rankWritesSafe t a && rankWritesSafe (applyRankWrites t a) b) := by
  induction a with
  | nil =>
      intro b t
      simp [rankWritesSafe, applyRankWrites_nil]
  | cons w a ih =>
      intro b t
      rw [List.cons_append]
      have hdef1 : rankWritesSafe t (w :: (a ++ b)) =
          (t.all (fun r => r.id == w.1 || r.rank != w.2) &&
            rankWritesSafe (applyTcEvent t (.updateRank w.1 w.2)) (a ++ b)) := rfl
      have hdef2 : rankWritesSafe t (w :: a) =
          (t.all (fun r => r.id == w.1 || r.rank != w.2) &&
            rankWritesSafe (applyTcEvent t (.updateRank w.1 w.2)) a) := rfl
      rw [hdef1, hdef2, ih b, applyRankWrites_cons, Bool.and_assoc]

/-- Phase one is safe: each temporary rank is strictly above every rank
currently live, and the ranks stay below the moving bound. -/
theorem tempPhaseSafe (ps : List (Nat × Nat)) :
    ∀ (b : Nat) (t : List TcRow),
      ps.map (·.2) = List.range' b ps.length →
      (∀ r ∈ t, r.rank < b) →
      rankWritesSafe t ps = true ∧
        ∀ r ∈ applyRankWrites t ps, r.rank < b + ps.length := by
  induction ps with
  | nil =>
      intro b t _ hb
      exact ⟨rfl, by simpa [applyRankWrites_nil] using fun r hr => hb r hr⟩
  | cons w ps ih =>
      intro b t hmap hb
      rw [List.map_cons, List.length_cons, List.range'_succ] at hmap
      injection hmap with hw2 hps
      have hstep : ∀ r ∈ applyTcEvent t (.updateRank w.1 w.2), r.rank < b + 1 := by
        intro r hr
        unfold applyTcEvent at hr
        obtain ⟨r0, hr0, rfl⟩ := List.mem_map.mp hr
        by_cases h : r0.id = w.1
        · rw [if_pos h]
          simp [hw2]
        · rw [if_neg h]
          exact Nat.lt_succ_of_lt (hb r0 hr0)
      obtain ⟨ih1, ih2⟩ := ih (b + 1) (applyTcEvent t (.updateRank w.1 w.2)) hps hstep
      refine ⟨?_, ?_⟩
      · unfold rankWritesSafe
        rw [ih1, Bool.and_true]
        rw [List.all_eq_true]
        intro r hr
        rcases Nat.decEq r.id w.1 with h | h
        · have hne : r.rank ≠ w.2 := by
            rw [hw2]
            have := hb r hr
            omega
          simp [hne]
        · simp [h]
      · intro r hr
        rw [applyRankWrites_cons] at hr
        have := ih2 r hr
        simp only [List.length_cons]
        omega

/-- Phase two is safe provided the pending target values are pairwise
distinct and no live row other than a write's own row currently holds
any pending target value. -/
theorem targetPhaseSafe (ps : List (Nat × Nat)) :
    ∀ t : List TcRow,
      ((ps.map (·.2)).Nodup) →
      (∀ r ∈ t, ∀ p ∈ ps, r.id ≠ p.1 → r.rank ≠ p.2) →
      rankWritesSafe t ps = true := by
  induction ps with
  | nil => intro t _ _; rfl
  | cons w ps ih =>
      intro t hnd hB
      rw [List.map_cons, List.nodup_cons] at hnd
      unfold rankWritesSafe
      have hsafe : t.all (fun r => r.id == w.1 || r.rank != w.2) = true := by
        rw [List.all_eq_true]
        intro r hr
        rcases Nat.decEq r.id w.1 with h | h
        · have := hB r hr w (List.mem_cons_self _ _) h
          simp [h, this]
        · simp [h]
      rw [hsafe, Bool.true_and]
      apply ih
      · exact hnd.2
      · intro r hr p hp hne
        unfold applyTcEvent at hr
        obtain ⟨r0, hr0, rfl⟩ := List.mem_map.mp hr
        by_cases h : r0.id = w.1
        · rw [if_pos h]
          rw [if_pos h] at hne
          dsimp only
          intro hc
          exact hnd.1 (hc ▸ List.mem_map.mpr ⟨p, hp, rfl⟩)
        · rw [if_neg h]
          rw [if_neg h] at hne
          exact hB r0 hr0 p (List.mem_cons_of_mem _ hp) hne

theorem rankPhaseWrites_split (C : List DbTestCase) :
    rankPhaseWrites C = phase1Writes C ++ phase2Writes C := by
  unfold rankPhaseWrites phase1Writes phase2Writes
  dsimp only
  split
  · rename_i h
    rw [List.isEmpty_iff] at h
    rw [h]
    simp
  · rfl

theorem enumFrom_map_snd {α : Type} (l : List α) :
    ∀ n : Nat, (List.enumFrom n l).map (·.2) = l := by
  induction l with
  | nil => intro n; rfl
  | cons x xs ih =>
      intro n
      show (n, x).2 :: (List.enumFrom (n + 1) xs).map (·.2) = x :: xs
      rw [ih (n + 1)]

theorem enumFrom_map_fst_addl {α : Type} (b : Nat) (l : List α) :
    ∀ n : Nat, (List.enumFrom n l).map (fun ic => b + ic.1) =
      List.range' (b + n) l.length := by
  induction l with
  | nil => intro n; rfl
  | cons x xs ih =>
      intro n
      show (b + n) :: (List.enumFrom (n + 1) xs).map (fun ic => b + ic.1) = _
      rw [ih (n + 1), List.length_cons, List.range'_succ]
      have harith : b + (n + 1) = b + n + 1 := by omega
      rw [harith]

theorem enumFrom_map_fst_addr {α : Type} (b : Nat) (l : List α) :
    ∀ n : Nat, (List.enumFrom n l).map (fun ic => ic.1 + b) =
      List.range' (n + b) l.length := by
  induction l with
  | nil => intro n; rfl
  | cons x xs ih =>
      intro n
      show (n + b) :: (List.enumFrom (n + 1) xs).map (fun ic => ic.1 + b) = _
      rw [ih (n + 1), List.length_cons, List.range'_succ]
      have harith : n + 1 + b = n + b + 1 := by omega
      rw [harith]

theorem phase1Writes_snd (C : List DbTestCase) :
    (phase1Writes C).map (·.2) =
      List.range' ((C.map (·.rank)).foldl max 0 + 2)
        (rankUpdateList (sortCases C)).length := by
  unfold phase1Writes List.enum
  rw [List.map_map]
  have := enumFrom_map_fst_addl ((C.map (·.rank)).foldl max 0 + 1 + 1)
    (rankUpdateList (sortCases C)) 0
  calc ((List.enumFrom 0 (rankUpdateList (sortCases C))).map
          ((fun p => p.2) ∘ fun jc => (jc.2.2.case_id, (C.map (·.rank)).foldl max 0 + 1 + 1 + jc.1)))
      = (List.enumFrom 0 (rankUpdateList (sortCases C))).map
          (fun jc => (C.map (·.rank)).foldl max 0 + 1 + 1 + jc.1) := rfl
    _ = List.range' ((C.map (·.rank)).foldl max 0 + 1 + 1 + 0)
          (rankUpdateList (sortCases C)).length := this
    _ = _ := by congr 1

theorem phase1Writes_fst (C : List DbTestCase) :
    (phase1Writes C).map (·.1) =
      (rankUpdateList (sortCases C)).map (·.2.case_id) := by
  unfold phase1Writes List.enum
  rw [List.map_map]
  have h2 := enumFrom_map_snd (rankUpdateList (sortCases C)) 0
  calc ((List.enumFrom 0 (rankUpdateList (sortCases C))).map
          ((fun p => p.1) ∘ fun jc => (jc.2.2.case_id, (C.map (·.rank)).foldl max 0 + 1 + 1 + jc.1)))
      = (List.enumFrom 0 (rankUpdateList (sortCases C))).map
          (fun jc => jc.2.2.case_id) := rfl
    _ = ((List.enumFrom 0 (rankUpdateList (sortCases C))).map (·.2)).map (·.2.case_id) := by
          rw [List.map_map]; rfl
    _ = _ := by rw [h2]

theorem phase2Writes_fst (C : List DbTestCase) :
    (phase2Writes C).map (·.1) =
      (rankUpdateList (sortCases C)).map (·.2.case_id) := by
  unfold phase2Writes
  rw [List.map_map]
  rfl

theorem targetAssoc_snd (C : List DbTestCase) :
    (targetAssoc C).map (·.2) = List.range' 1 (sortCases C).length := by
  unfold targetAssoc List.enum
  rw [List.map_map]
  have := enumFrom_map_fst_addr 1 (sortCases C) 0
  calc ((List.enumFrom 0 (sortCases C)).map
          ((fun p => p.2) ∘ fun ic => (ic.2.case_id, ic.1 + 1)))
      = (List.enumFrom 0 (sortCases C)).map (fun ic => ic.1 + 1) := rfl
    _ = List.range' (0 + 1) (sortCases C).length := this
    _ = _ := by congr 1

theorem targetAssoc_fst (C : List DbTestCase) :
    (targetAssoc C).map (·.1) = (sortCases C).map (·.case_id) := by
  unfold targetAssoc List.enum
  rw [List.map_map]
  have h2 := enumFrom_map_snd (sortCases C) 0
  calc ((List.enumFrom 0 (sortCases C)).map
          ((fun p => p.1) ∘ fun ic => (ic.2.case_id, ic.1 + 1)))
      = ((List.enumFrom 0 (sortCases C)).map (·.2)).map (·.case_id) := by
          rw [List.map_map]; rfl
    _ = _ := by rw [h2]

theorem phase2Writes_eq_filterMap (C : List DbTestCase) :
    phase2Writes C = (sortCases C).enum.filterMap
      fun ic => if ic.1 + 1 ≠ ic.2.rank then some (ic.2.case_id, ic.1 + 1) else none := by
  unfold phase2Writes rankUpdateList
  rw [List.map_filterMap]
  apply List.filterMap_congr
  intro ic _
  by_cases h : ic.1 + 1 ≠ ic.2.rank <;> simp [h]

theorem filterMap_guard_sublist {α β : Type} (p : α → Prop) [DecidablePred p]
    (f : α → β) (l : List α) :
    (l.filterMap fun x => if p x then some (f x) else none).Sublist (l.map f) := by
  induction l with
  | nil => simp
  | cons x xs ih =>
      rw [List.filterMap_cons, List.map_cons]
      by_cases h : p x
      · rw [if_pos h]
        exact ih.cons₂ (f x)
      · rw [if_neg h]
        exact ih.cons (f x)

theorem phase2Writes_sublist_target (C : List DbTestCase) :
    (phase2Writes C).Sublist (targetAssoc C) := by
  rw [phase2Writes_eq_filterMap]
  unfold targetAssoc
  exact filterMap_guard_sublist _ _ _

/-! ### Small association lookups -/

theorem lookup_of_mem_nodup {β : Type} {ps : List (Nat × β)} {k : Nat} {v : β}
    (hmem : (k, v) ∈ ps) (hnd : (ps.map (·.1)).Nodup) : ps.lookup k = some v := by
  induction ps with
  | nil => simp at hmem
  | cons p rest ih =>
      rw [List.map_cons, List.nodup_cons] at hnd
      rcases List.mem_cons.mp hmem with rfl | hmem
      · rw [List.lookup]
        simp
      · have hne : k ≠ p.1 := by
          intro hc
          exact hnd.1 (hc ▸ List.mem_map.mpr ⟨(k, v), hmem, rfl⟩)
        rw [List.lookup]
        have hbeq : (k == p.1) = false := by simpa using hne
        rw [hbeq]
        exact ih hmem hnd.2

theorem lookup_none_of_not_mem {β : Type} {ps : List (Nat × β)} {k : Nat}
    (h : k ∉ ps.map (·.1)) : ps.lookup k = none := by
  cases hl : ps.lookup k with
  | none => rfl
  | some v =>
      exact absurd ((lookup_isSome_iff_mem ps k).mp (by rw [hl]; rfl)) h

/-! ### Fold-max bounds -/

theorem foldl_max_le_mem (l : List Nat) : ∀ (a : Nat), a ≤ l.foldl max a ∧
    ∀ x ∈ l, x ≤ l.foldl max a := by
  induction l with
  | nil => intro a; exact ⟨Nat.le_refl a, by intro x hx; simp at hx⟩
  | cons y ys ih =>
      intro a
      rw [List.foldl_cons]
      obtain ⟨h1, h2⟩ := ih (max a y)
      refine ⟨le_trans (Nat.le_max_left a y) h1, ?_⟩
      intro x hx
      rcases List.mem_cons.mp hx with rfl | hx
      · exact le_trans (Nat.le_max_right a x) h1
      · exact h2 x hx

theorem nodup_nat_length_le (l : List Nat) (m : Nat) (hnd : l.Nodup)
    (hb : ∀ x ∈ l, x ≤ m) : l.length ≤ m + 1 := by
  have hsub : l.toFinset ⊆ Finset.range (m + 1) := by
    intro x hx
    rw [List.mem_toFinset] at hx
    rw [Finset.mem_range]
    exact Nat.lt_succ_of_le (hb x hx)
  have hcard := Finset.card_le_card hsub
  rw [List.toFinset_card_of_nodup hnd, Finset.card_range] at hcard
  exact hcard

theorem phase2Writes_keys_nodup (C : List DbTestCase)
    (hidC : (C.map (·.case_id)).Nodup) :
    ((phase2Writes C).map (·.1)).Nodup := by
  have hsorted : ((sortCases C).map (·.case_id)).Nodup :=
    ((List.perm_insertionSort caseKeyLe C).map (·.case_id)).nodup_iff.mpr hidC
  have := (phase2Writes_sublist_target C).map (·.1)
  rw [targetAssoc_fst] at this
  exact this.nodup hsorted

theorem targetAssoc_snd_nodup (C : List DbTestCase) :
    ((targetAssoc C).map (·.2)).Nodup := by
  rw [targetAssoc_snd, List.range'_eq_map_range]
  exact (List.nodup_range _).map fun a b h => by omega

theorem phase2Writes_snd_nodup (C : List DbTestCase) :
    ((phase2Writes C).map (·.2)).Nodup :=
  ((phase2Writes_sublist_target C).map (·.2)).nodup (targetAssoc_snd_nodup C)

theorem phase2Writes_val_le (C : List DbTestCase) :
    ∀ p ∈ phase2Writes C, 1 ≤ p.2 ∧ p.2 ≤ C.length := by
  intro p hp
  have hmem := (phase2Writes_sublist_target C).mem hp
  have hval : p.2 ∈ (targetAssoc C).map (·.2) := List.mem_map.mpr ⟨p, hmem, rfl⟩
  rw [targetAssoc_snd] at hval
  rw [List.mem_range'] at hval
  have hlen := (List.perm_insertionSort caseKeyLe C).length_eq
  obtain ⟨i, hi, hpe⟩ := hval
  unfold sortCases at hlen hi
  omega

/-- A case left out of `rank_update` already sits at its sorted
position: its pair is in the full target assignment. -/
theorem untouched_mem_targetAssoc (C : List DbTestCase) (c : DbTestCase)
    (hc : c ∈ sortCases C)
    (hnot : c.case_id ∉ (phase2Writes C).map (·.1)) :
    (c.case_id, c.rank) ∈ targetAssoc C := by
  obtain ⟨i, hi, hget⟩ := List.getElem_of_mem hc
  have henum : (i, c) ∈ (sortCases C).enum := by
    rw [List.mk_mem_enum_iff_getElem?]
    rw [List.getElem?_eq_getElem hi, hget]
  by_cases hii : i + 1 ≠ c.rank
  · exfalso
    apply hnot
    have hp2 : (c.case_id, i + 1) ∈ phase2Writes C := by
      rw [phase2Writes_eq_filterMap]
      exact List.mem_filterMap.mpr ⟨(i, c), henum, by rw [if_pos hii]⟩
    exact List.mem_map.mpr ⟨(c.case_id, i + 1), hp2, rfl⟩
  · push_neg at hii
    unfold targetAssoc
    exact List.mem_map.mpr ⟨(i, c), henum, by rw [← hii]⟩

/-- The per-row final rank, evaluated at a sorted position, is that
position's 1-based index. -/
theorem finalRankOf_at_position (C : List DbTestCase)
    (hidC : (C.map (·.case_id)).Nodup) (i : Nat) (hi : i < (sortCases C).length) :
    finalRankOf C (((sortCases C)[i]).case_id, ((sortCases C)[i]).rank) = i + 1 := by
  have hsortedKeys : ((sortCases C).map (·.case_id)).Nodup :=
    ((List.perm_insertionSort caseKeyLe C).map (·.case_id)).nodup_iff.mpr hidC
  have henum : (i, (sortCases C)[i]) ∈ (sortCases C).enum := by
    rw [List.mk_mem_enum_iff_getElem?]
    exact List.getElem?_eq_getElem hi
  unfold finalRankOf
  by_cases hii : i + 1 ≠ ((sortCases C)[i]).rank
  · have hp2 : (((sortCases C)[i]).case_id, i + 1) ∈ phase2Writes C := by
      rw [phase2Writes_eq_filterMap]
      exact List.mem_filterMap.mpr ⟨(i, (sortCases C)[i]), henum, by rw [if_pos hii]⟩
    rw [lookup_of_mem_nodup hp2 (phase2Writes_keys_nodup C hidC)]
  · push_neg at hii
    have hnone : (phase2Writes C).lookup ((sortCases C)[i]).case_id = none := by
      apply lookup_none_of_not_mem
      intro hmem
      obtain ⟨p, hp, hpeq⟩ := List.mem_map.mp hmem
      rw [phase2Writes_eq_filterMap] at hp
      obtain ⟨jc, hjc, hjceq⟩ := List.mem_filterMap.mp hp
      by_cases hg : jc.1 + 1 ≠ jc.2.rank
      · rw [if_pos hg] at hjceq
        cases hjceq
        rw [List.mk_mem_enum_iff_getElem?] at hjc
        have hjlt : jc.1 < (sortCases C).length := by
          by_contra hge
          rw [List.getElem?_eq_none (by omega)] at hjc
          cases hjc
        rw [List.getElem?_eq_getElem hjlt] at hjc
        have hjc2 : (sortCases C)[jc.1] = jc.2 := Option.some.inj hjc
        have hsortedNodup : (sortCases C).Nodup :=
          ((List.perm_insertionSort caseKeyLe C).nodup_iff).mpr hidC.of_map
        have hel : (sortCases C)[jc.1] = (sortCases C)[i] := by
          apply List.inj_on_of_nodup_map hsortedKeys
          · exact List.getElem_mem _
          · exact List.getElem_mem _
          · rw [hjc2]
            exact hpeq
        have hji : jc.1 = i := by
          have := (List.Nodup.get_inj_iff hsortedNodup).mp
            (by simpa [List.get_eq_getElem] using hel :
              (sortCases C).get ⟨jc.1, hjlt⟩ = (sortCases C).get ⟨i, hi⟩)
          simpa using this
        exact hg (by rw [hji, ← hjc2, hel]; exact hii)
      · rw [if_neg hg] at hjceq
        cases hjceq
    rw [hnone, hii]

/-- Soundness of the two-phase rank plan over any live-row store whose
(id, rank) pairs agree with the in-memory cases: the whole write
sequence is safe, and afterwards the live ranks are exactly `{1..N}`. -/
theorem rankPlanSound (C : List DbTestCase) (t : List TcRow)
    (hB : (t.map fun r => (r.id, r.rank)).Perm (C.map fun c => (c.case_id, c.rank)))
    (hidC : (C.map (·.case_id)).Nodup)
    (hrkC : (C.map (·.rank)).Nodup) :
    rankWritesSafe t (rankPhaseWrites C) = true ∧
    ((applyRankWrites t (rankPhaseWrites C)).map (·.rank)).Perm
      (List.range' 1 C.length) ∧
    (∀ w ∈ phase1Writes C, (∀ r ∈ t, r.rank < w.2) ∧ C.length < w.2) ∧
    ((phase1Writes C).map (·.2)).Pairwise (· < ·) := by
  have hsp := List.perm_insertionSort caseKeyLe C
  have hrle : ∀ r ∈ t, r.rank ≤ (C.map (·.rank)).foldl max 0 := by
    intro r hr
    have hmem : (r.id, r.rank) ∈ C.map fun c => (c.case_id, c.rank) :=
      hB.subset (List.mem_map.mpr ⟨r, hr, rfl⟩)
    obtain ⟨c, hc, hceq⟩ := List.mem_map.mp hmem
    have hrk : r.rank = c.rank := (Prod.mk.injEq _ _ _ _ ▸ hceq).2.symm
    rw [hrk]
    exact (foldl_max_le_mem (C.map (·.rank)) 0).2 c.rank (List.mem_map.mpr ⟨c, hc, rfl⟩)
  have hNle : C.length ≤ (C.map (·.rank)).foldl max 0 + 1 := by
    have := nodup_nat_length_le (C.map (·.rank)) ((C.map (·.rank)).foldl max 0) hrkC
      (foldl_max_le_mem (C.map (·.rank)) 0).2
    simpa using this
  have hp1len : (phase1Writes C).length = (rankUpdateList (sortCases C)).length := by
    unfold phase1Writes
    rw [List.length_map, List.enum_length]
  have hp1snd : (phase1Writes C).map (·.2) =
      List.range' ((C.map (·.rank)).foldl max 0 + 2) (phase1Writes C).length := by
    rw [phase1Writes_snd, hp1len]
  have hbig : ∀ w ∈ phase1Writes C,
      (∀ r ∈ t, r.rank < w.2) ∧ C.length < w.2 := by
    intro w hw
    have hv : w.2 ∈ (phase1Writes C).map (·.2) := List.mem_map.mpr ⟨w, hw, rfl⟩
    rw [hp1snd, List.mem_range'] at hv
    obtain ⟨i, hi, hveq⟩ := hv
    constructor
    · intro r hr
      have := hrle r hr
      omega
    · omega
  have hmono : ((phase1Writes C).map (·.2)).Pairwise (· < ·) := by
    rw [hp1snd, List.range'_eq_map_range]
    rw [List.pairwise_map]
    exact (List.pairwise_lt_range _).imp fun h => by omega
  obtain ⟨hsafe1, hbound1⟩ := tempPhaseSafe (phase1Writes C)
    ((C.map (·.rank)).foldl max 0 + 2) t hp1snd
    (by intro r hr; have := hrle r hr; omega)
  have hkeys : (phase1Writes C).map (·.1) = (phase2Writes C).map (·.1) := by
    rw [phase1Writes_fst, phase2Writes_fst]
  have hp2knd := phase2Writes_keys_nodup C hidC
  have hp1knd : ((phase1Writes C).map (·.1)).Nodup := by
    rw [hkeys]; exact hp2knd
  have hBcond : ∀ r2 ∈ applyRankWrites t (phase1Writes C), ∀ p ∈ phase2Writes C,
      r2.id ≠ p.1 → r2.rank ≠ p.2 := by
    rw [applyRankWrites_eq_map]
    intro r2 hr2 p hp hne
    obtain ⟨r0, hr0, rfl⟩ := List.mem_map.mp hr2
    have hple := phase2Writes_val_le C p hp
    by_cases hmem0 : r0.id ∈ (phase1Writes C).map (·.1)
    · have hlkrw := applyWritesRow_lookup (phase1Writes C) r0 hp1knd
      cases hlk : (phase1Writes C).lookup r0.id with
      | none =>
          exact absurd ((lookup_isSome_iff_mem _ _).mpr hmem0) (by rw [hlk]; simp)
      | some v =>
          rw [hlk] at hlkrw
          rw [hlkrw]
          dsimp only
          have hvmem : v ∈ (phase1Writes C).map (·.2) :=
            List.mem_map.mpr ⟨(r0.id, v), lookup_eq_some_mem hlk, rfl⟩
          rw [hp1snd, List.mem_range'] at hvmem
          obtain ⟨i, hi, hveq⟩ := hvmem
          omega
    · rw [applyWritesRow_not_mem _ _ hmem0]
      rw [applyWritesRow_not_mem _ _ hmem0] at hne
      have hmem2 : r0.id ∉ (phase2Writes C).map (·.1) := by
        rw [← hkeys]; exact hmem0
      have hcmem : (r0.id, r0.rank) ∈ C.map fun c => (c.case_id, c.rank) :=
        hB.subset (List.mem_map.mpr ⟨r0, hr0, rfl⟩)
      obtain ⟨c, hc, hceq⟩ := List.mem_map.mp hcmem
      have hcid : c.case_id = r0.id := (Prod.mk.injEq _ _ _ _ ▸ hceq).1
      have hcrk : c.rank = r0.rank := (Prod.mk.injEq _ _ _ _ ▸ hceq).2
      have htg : (c.case_id, c.rank) ∈ targetAssoc C :=
        untouched_mem_targetAssoc C c (hsp.mem_iff.mpr hc) (hcid ▸ hmem2)
      have hptg : p ∈ targetAssoc C := (phase2Writes_sublist_target C).mem hp
      intro hcontra
      have heqpair : (c.case_id, c.rank) = p :=
        List.inj_on_of_nodup_map (targetAssoc_snd_nodup C) htg hptg
          (by dsimp only; rw [hcrk, hcontra])
      apply hne
      rw [← hcid]
      exact congrArg Prod.fst heqpair
  have hsafe2 := targetPhaseSafe (phase2Writes C)
    (applyRankWrites t (phase1Writes C)) (phase2Writes_snd_nodup C) hBcond
  have hsafeAll : rankWritesSafe t (rankPhaseWrites C) = true := by
    rw [rankPhaseWrites_split, rankWritesSafe_append, hsafe1, hsafe2]
    rfl
  refine ⟨hsafeAll, ?_, hbig, hmono⟩
  have hRow : ∀ r : TcRow,
      (applyWritesRow (phase1Writes C ++ phase2Writes C) r).rank =
        finalRankOf C (r.id, r.rank) := by
    intro r
    rw [applyWritesRow_append]
    have hid1 : (applyWritesRow (phase1Writes C) r).id = r.id := applyWritesRow_id _ _
    have hlkrw := applyWritesRow_lookup (phase2Writes C)
      (applyWritesRow (phase1Writes C) r) hp2knd
    rw [hid1] at hlkrw
    unfold finalRankOf
    cases hlk : (phase2Writes C).lookup r.id with
    | none =>
        rw [hlk] at hlkrw
        rw [hlkrw]
        have hnot2 : r.id ∉ (phase2Writes C).map (·.1) := by
          intro hc
          exact absurd ((lookup_isSome_iff_mem _ _).mpr hc) (by rw [hlk]; simp)
        have hnot1 : r.id ∉ (phase1Writes C).map (·.1) := by
          rw [hkeys]; exact hnot2
        rw [applyWritesRow_not_mem _ _ hnot1]
    | some v =>
        rw [hlk] at hlkrw
        rw [hlkrw]
  have hmapEq : (applyRankWrites t (rankPhaseWrites C)).map (·.rank) =
      (t.map fun r => (r.id, r.rank)).map (finalRankOf C) := by
    rw [rankPhaseWrites_split, applyRankWrites_eq_map, List.map_map, List.map_map]
    apply List.map_congr_left
    intro r _
    exact hRow r
  rw [hmapEq]
  have hstep1 : ((t.map fun r => (r.id, r.rank)).map (finalRankOf C)).Perm
      ((C.map fun c => (c.case_id, c.rank)).map (finalRankOf C)) :=
    hB.map (finalRankOf C)
  have hstep2 : ((C.map fun c => (c.case_id, c.rank)).map (finalRankOf C)).Perm
      (((sortCases C).map fun c => (c.case_id, c.rank)).map (finalRankOf C)) :=
    ((hsp.map fun c => (c.case_id, c.rank)).map (finalRankOf C)).symm
  have hstep3 : ((sortCases C).map fun c => (c.case_id, c.rank)).map (finalRankOf C) =
      List.range' 1 C.length := by
    rw [List.map_map]
    apply List.ext_getElem
    · rw [List.length_map, List.length_range']
      exact hsp.length_eq
    · intro i h1 h2
      rw [List.getElem_map, List.getElem_range']
      have hi : i < (sortCases C).length := by
        rw [List.length_map] at h1
        exact h1
      have := finalRankOf_at_position C hidC i hi
      calc (finalRankOf C ∘ fun c => (c.case_id, c.rank)) (sortCases C)[i]
          = finalRankOf C (((sortCases C)[i]).case_id, ((sortCases C)[i]).rank) := rfl
        _ = i + 1 := this
        _ = 1 + 1 * i := by omega
  exact (hstep1.trans hstep2).trans (by rw [hstep3])

/-! ### Multiset accounting from the snapshot to the rank phase (C1) -/

theorem applyTcEvents_nil (s : List TcRow) : applyTcEvents s [] = s := rfl

theorem applyTcEvent_deleteCases_eq (s : List TcRow) (ids : List Nat) :
    applyTcEvent s (.deleteCases ids) = s.filter fun r => r.id ∉ ids := rfl

theorem id_map_eq_fst_of_idrank (s : List TcRow) :
    s.map (·.id) = (s.map fun r => (r.id, r.rank)).map Prod.fst := by
  rw [List.map_map]
  rfl

theorem applyTcEvent_replaceContent_id_rank (s : List TcRow) (a : Nat) (b : Bool) :
    ((applyTcEvent s (.replaceContent a b)).map fun r => (r.id, r.rank)) =
      s.map fun r => (r.id, r.rank) := by
  unfold applyTcEvent
  rw [List.map_map]
  apply List.map_congr_left
  intro r _
  by_cases h : r.id = a <;> simp [h, Function.comp]

theorem applyTcEvent_stripImages_id_rank (s : List TcRow) (ids : List Nat) (n : Nat) :
    ((applyTcEvent s (.stripImages ids n)).map fun r => (r.id, r.rank)) =
      s.map fun r => (r.id, r.rank) := by
  unfold applyTcEvent
  rw [List.map_map]
  apply List.map_congr_left
  intro r _
  by_cases h : r.id ∈ ids <;> simp [h, Function.comp]

/-- Looking a key up in an association list and erasing its first
occurrence partitions the values: the value list is a permutation of
the found value consed onto the values of the erased list. -/
theorem lookup_eraseP_perm {α β : Type} [BEq α] [LawfulBEq α] :
    ∀ (l : List (α × β)) (k : α) (c : β), l.lookup k = some c →
      (l.map (·.2)).Perm (c :: (l.eraseP (fun e => e.1 == k)).map (·.2)) := by
  intro l
  induction l with
  | nil => intro k c h; simp [List.lookup] at h
  | cons e t ih =>
      intro k c h
      obtain ⟨k2, v⟩ := e
      unfold List.lookup at h
      rw [List.eraseP_cons]
      split at h
      · next hk =>
          have hc : c = v := by
            injection h with h2
            exact h2.symm
          have hk2 : ((k2, v).1 == k) = true := by
            have := eq_of_beq hk
            simp [this]
          rw [hk2]
          subst hc
          exact List.Perm.refl _
      · next hk =>
          have hk2 : ((k2, v).1 == k) = false := by
            have hne : ¬ (k = k2) := by
              intro hc
              rw [hc] at hk
              simp at hk
            simp
            intro hc
            exact hne hc.symm
          rw [hk2]
          simp only [List.map_cons, cond_false]
          exact ((ih k c h).cons v).trans (List.Perm.swap c v _)

theorem matchStep_partition (st : MatchState) (ptc : ProblemTestCase) :
    ((matchStep st ptc).matched.map (·.2) ++ (matchStep st ptc).by_name.map (·.2)).Perm
      (st.matched.map (·.2) ++ st.by_name.map (·.2)) := by
  unfold matchStep
  cases h : st.by_name.lookup ptc.unique_name with
  | none => exact List.Perm.refl _
  | some c =>
      dsimp only
      have hp := lookup_eraseP_perm st.by_name ptc.unique_name c h
      have heq : (st.matched ++ [(ptc, c)]).map (·.2) =
          st.matched.map (·.2) ++ [c] := by simp
      rw [heq, List.append_assoc]
      exact List.Perm.append_left _ hp.symm

theorem matchFold_partition (desired : List ProblemTestCase) :
    ∀ st : MatchState,
      ((desired.foldl matchStep st).matched.map (·.2) ++
        (desired.foldl matchStep st).by_name.map (·.2)).Perm
      (st.matched.map (·.2) ++ st.by_name.map (·.2)) := by
  induction desired with
  | nil => intro st; exact List.Perm.refl _
  | cons d rest ih =>
      intro st
      rw [List.foldl_cons]
      exact (ih (matchStep st d)).trans (matchStep_partition st d)

theorem matchCases_partition (desired : List ProblemTestCase)
    (by_name : List (String × DbTestCase)) :
    ((matchCases desired by_name).matched.map (·.2) ++
      (matchCases desired by_name).by_name.map (·.2)).Perm (by_name.map (·.2)) := by
  unfold matchCases
  have := matchFold_partition desired { by_name := by_name, matched := [], missing := [] }
  simpa using this

theorem scanStepP_partition (st : ScanState) (r : TcRow) :
    ((scanStepP st r).by_name.map (·.2) ++ (scanStepP st r).leftover).Perm
      ((st.by_name.map (·.2) ++ st.leftover) ++ [rowToCase r]) := by
  unfold scanStepP
  dsimp only
  split
  · dsimp only
    rw [← List.append_assoc]
  · dsimp only
    simp only [List.map_append, List.map_cons, List.map_nil]
    rw [List.append_assoc, List.append_assoc]
    exact List.Perm.append_left _ List.perm_append_comm

theorem scanFold_partition (store : List TcRow) :
    ∀ st : ScanState,
      ((store.foldl scanStepP st).by_name.map (·.2) ++
        (store.foldl scanStepP st).leftover).Perm
      ((st.by_name.map (·.2) ++ st.leftover) ++ store.map rowToCase) := by
  induction store with
  | nil => intro st; simp
  | cons q rest ih =>
      intro st
      rw [List.foldl_cons, List.map_cons]
      refine (ih (scanStepP st q)).trans ?_
      refine ((scanStepP_partition st q).append_right (rest.map rowToCase)).trans ?_
      rw [List.append_assoc]
      exact List.Perm.refl _

theorem zip_map_snd {α β : Type} : ∀ (A : List α) (B : List β),
    (A.zip B).map (·.2) = B.take A.length := by
  intro A
  induction A with
  | nil => intro B; simp
  | cons a A ih =>
      intro B
      cases B with
      | nil => simp
      | cons b B => simp [ih B]

theorem insertedPairsFrom_cidrank (M : List ProblemTestCase) :
    ∀ mr nid : Nat,
      ((insertedPairsFrom M mr nid).map fun p => (p.2.case_id, p.2.rank)) =
        insertedIdRanks M mr nid := by
  induction M with
  | nil => intro mr nid; rfl
  | cons m M ih =>
      intro mr nid
      unfold insertedPairsFrom insertedIdRanks
      rw [List.map_cons, ih (mr + 1) (nid + 1)]

theorem recycledPairsFor_cidrank (M : List ProblemTestCase) (L : List DbTestCase) :
    ((recycledPairsFor M L).map fun p => (p.2.case_id, p.2.rank)) =
      (L.reverse.take M.length).map fun c => (c.case_id, c.rank) := by
  unfold recycledPairsFor
  rw [List.map_map, ← zip_map_snd M L.reverse, List.map_map]
  rfl

/-- Splitting a list into the part surviving `m` pops from the end and
the (reversed) popped part is a permutation of the list. -/
theorem perm_take_reverse_take {α : Type} (L : List α) (m : Nat) :
    L.Perm (L.take (L.length - m) ++ L.reverse.take m) := by
  by_cases hm : m ≤ L.length
  · have hdrop : (L.drop (L.length - m)).reverse = L.reverse.take m := by
      rw [List.reverse_drop]
      congr 1
      omega
    have hsplit : L = L.take (L.length - m) ++ L.drop (L.length - m) :=
      (List.take_append_drop _ _).symm
    have hfin := List.Perm.append_left (L.take (L.length - m))
      ((List.reverse_perm (L.drop (L.length - m))).symm)
    rw [hdrop] at hfin
    rw [← hsplit] at hfin
    exact hfin
  · have h1 : L.length - m = 0 := by omega
    have h2 : L.reverse.take m = L.reverse := by
      apply List.take_of_length_le
      rw [List.length_reverse]
      omega
    rw [h1, h2, List.take_zero, List.nil_append]
    exact (List.reverse_perm L).symm

theorem perm_append_swap_left {α : Type} (A B C : List α) :
    (A ++ (B ++ C)).Perm (B ++ (A ++ C)) := by
  rw [← List.append_assoc, ← List.append_assoc]
  exact List.perm_append_comm.append_right _

theorem filter_map_idrank (ids : List Nat) :
    ∀ s : List TcRow,
      ((s.filter fun r => r.id ∉ ids).map fun r => (r.id, r.rank)) =
        ((s.map fun r => (r.id, r.rank)).filter fun p => p.1 ∉ ids) := by
  intro s
  induction s with
  | nil => rfl
  | cons r t ih =>
      simp only [List.filter_cons, List.map_cons]
      by_cases h : r.id ∈ ids
      · rw [if_neg (by simp [h]), if_neg (by simp [h])]
        exact ih
      · rw [if_pos (by simp [h]), if_pos (by simp [h]), List.map_cons, ih]

/-- Deleting the rows of the `rem` part of a partition by id keeps
exactly the `keep` part, provided the ids are pairwise distinct. -/
theorem filter_delete_perm (s : List TcRow) (ids : List Nat)
    (remCid keep : List (Nat × Nat))
    (hnd : (s.map (·.id)).Nodup)
    (hids : remCid.map (·.1) = ids)
    (hperm : (s.map fun r => (r.id, r.rank)).Perm (remCid ++ keep)) :
    ((s.filter fun r => r.id ∉ ids).map fun r => (r.id, r.rank)).Perm keep := by
  rw [filter_map_idrank]
  have h2 := hperm.filter (fun p => p.1 ∉ ids)
  rw [List.filter_append] at h2
  have hdisj : ∀ p ∈ keep, p.1 ∉ ids := by
    have hfst := hperm.map (fun p : Nat × Nat => p.1)
    rw [List.map_append, hids] at hfst
    have hnd2 : (ids ++ keep.map (·.1)).Nodup := by
      refine hfst.nodup ?_
      rw [List.map_map]
      exact hnd
    have hdis := List.disjoint_of_nodup_append hnd2
    intro p hp hpin
    exact hdis hpin (List.mem_map.mpr ⟨p, hp, rfl⟩)
  have hrem : remCid.filter (fun p => p.1 ∉ ids) = [] := by
    rw [List.filter_eq_nil_iff]
    intro p hp
    have hmem : p.1 ∈ ids := hids ▸ List.mem_map.mpr ⟨p, hp, rfl⟩
    simp [hmem]
  have hkeep : keep.filter (fun p => p.1 ∉ ids) = keep := by
    rw [List.filter_eq_self]
    intro p hp
    simpa using hdisj p hp
  rw [hrem, hkeep, List.nil_append] at h2
  exact h2

/-- Multiset accounting from the snapshot to the start of the rank
phase: in a snapshot with pairwise distinct ids and ranks whose ids lie
below the auto-increment counter, the live rows' (id, rank) pairs at
the start of the rank phase are exactly the (case_id, rank) pairs of
the in-memory `existing` cases, and the live ids and ranks are still
pairwise distinct. -/
theorem reconcilePrepP_accounting (desired : List ProblemTestCase) (store : List TcRow)
    (nextId : Nat)
    (hid : (store.map (·.id)).Nodup)
    (hrk : (store.map (·.rank)).Nodup)
    (hfresh : ∀ r ∈ store, r.id < nextId) :
    ((reconcilePrepP desired store nextId).store.map fun r => (r.id, r.rank)).Perm
      (((reconcilePrepP desired store nextId).existing.map (·.2)).map
        fun c => (c.case_id, c.rank)) ∧
    ((reconcilePrepP desired store nextId).store.map (·.id)).Nodup ∧
    ((reconcilePrepP desired store nextId).store.map (·.rank)).Nodup := by
  unfold reconcilePrepP
  dsimp only
  set scan := store.foldl scanStepP { maximal_rank := 0, by_name := [], leftover := [] }
    with hscanDef
  set ms := matchCases desired scan.by_name with hmsDef
  set L := scan.leftover ++ ms.by_name.map (·.2) with hLDef
  set mu := matchedUpdates store ms.matched with hmuDef
  set cs := createCases mu.store ms.missing L scan.maximal_rank nextId with hcsDef
  obtain ⟨hmuStore, hmuM, -⟩ := matchedUpdates_frame store ms.matched
  rw [← hmuDef] at hmuStore hmuM
  obtain ⟨-, hcsLeft, hcsCreated, hcsStore⟩ :=
    createCases_spec mu.store ms.missing L scan.maximal_rank nextId
  rw [← hcsDef] at hcsLeft hcsCreated hcsStore
  have hcsIdrank : (cs.store.map fun r => (r.id, r.rank)) =
      (store.map fun r => (r.id, r.rank)) ++
        insertedIdRanks (ms.missing.drop L.length) scan.maximal_rank nextId := by
    rw [hcsStore, applyTcEvents_append, applyTcEvents_insertEventsFrom,
      recycleEventsFor_id_rank, hmuStore]
  have hscanP2 : ((scan.by_name.map (·.2)) ++ scan.leftover).Perm (store.map rowToCase) := by
    have h := scanFold_partition store { maximal_rank := 0, by_name := [], leftover := [] }
    rw [← hscanDef] at h
    simpa using h
  have hmatchP : ((ms.matched.map (·.2)) ++ (ms.by_name.map (·.2))).Perm
      (scan.by_name.map (·.2)) := by
    have h := matchCases_partition desired scan.by_name
    rw [← hmsDef] at h
    exact h
  have hstoreCid : (store.map fun r => (r.id, r.rank)) =
      (store.map rowToCase).map fun c => (c.case_id, c.rank) := by
    rw [List.map_map]
    rfl
  have hMain : (store.map fun r => (r.id, r.rank)).Perm
      (((ms.matched.map (·.2)).map fun c => (c.case_id, c.rank)) ++
        (L.map fun c => (c.case_id, c.rank))) := by
    rw [hstoreCid, hLDef, List.map_append]
    have h1 := hscanP2.symm.map (fun c : DbTestCase => (c.case_id, c.rank))
    rw [List.map_append] at h1
    refine h1.trans ?_
    have h2 := hmatchP.symm.map (fun c : DbTestCase => (c.case_id, c.rank))
    rw [List.map_append] at h2
    refine (h2.append_right _).trans ?_
    rw [List.append_assoc]
    exact List.Perm.append_left _ List.perm_append_comm
  have hLsplit : (L.map fun c => (c.case_id, c.rank)).Perm
      (((L.take (L.length - ms.missing.length)).map fun c => (c.case_id, c.rank)) ++
        ((L.reverse.take ms.missing.length).map fun c => (c.case_id, c.rank))) := by
    have h := (perm_take_reverse_take L ms.missing.length).map
      (fun c : DbTestCase => (c.case_id, c.rank))
    have h2 : ((L.take (L.length - ms.missing.length) ++
          L.reverse.take ms.missing.length).map fun c : DbTestCase => (c.case_id, c.rank)) =
        (((L.take (L.length - ms.missing.length)).map
            fun c : DbTestCase => (c.case_id, c.rank)) ++
          ((L.reverse.take ms.missing.length).map
            fun c : DbTestCase => (c.case_id, c.rank))) :=
      List.map_append _ _ _
    exact h2 ▸ h
  have hexCid : (((mu.matched ++ cs.created).map (·.2)).map fun c => (c.case_id, c.rank)) =
      (((ms.matched.map (·.2)).map fun c => (c.case_id, c.rank)) ++
        (((L.reverse.take ms.missing.length).map fun c => (c.case_id, c.rank)) ++
          insertedIdRanks (ms.missing.drop L.length) scan.maximal_rank nextId)) := by
    rw [List.map_append, List.map_append, hcsCreated, List.map_append, List.map_append]
    congr 1
    · rw [List.map_map, List.map_map]
      exact hmuM
    · congr 1
      · rw [List.map_map]
        exact recycledPairsFor_cidrank ms.missing L
      · rw [List.map_map]
        exact insertedPairsFrom_cidrank (ms.missing.drop L.length) scan.maximal_rank nextId
  have hcsPerm : (cs.store.map fun r => (r.id, r.rank)).Perm
      (((ms.matched.map (·.2)).map fun c => (c.case_id, c.rank)) ++
        (((L.take (L.length - ms.missing.length)).map fun c => (c.case_id, c.rank)) ++
          (((L.reverse.take ms.missing.length).map fun c => (c.case_id, c.rank)) ++
            insertedIdRanks (ms.missing.drop L.length) scan.maximal_rank nextId))) := by
    rw [hcsIdrank]
    refine (hMain.append_right _).trans ?_
    refine ((List.Perm.append_left _ hLsplit).append_right _).trans ?_
    rw [List.append_assoc, List.append_assoc]
  have hinsBound : ∀ x ∈ insertedIdRanks (ms.missing.drop L.length) scan.maximal_rank nextId,
      scan.maximal_rank < x.2 ∧ nextId ≤ x.1 := fun x hx =>
    ⟨(insertedIdRanks_bounds _ _ _ x hx).1, (insertedIdRanks_bounds _ _ _ x hx).2.2.1⟩
  have hmaxStore : ∀ r ∈ store, r.rank ≤ scan.maximal_rank := by
    have h := (scanFold_maximal_ge store
      { maximal_rank := 0, by_name := [], leftover := [] }).2
    rw [← hscanDef] at h
    exact h
  have hcsIdNodup : (cs.store.map (·.id)).Nodup := by
    rw [id_map_eq_fst_of_idrank, hcsIdrank, List.map_append, ← id_map_eq_fst_of_idrank]
    refine List.Nodup.append hid (insertedIdRanks_fst_nodup _ _ _) ?_
    intro x hx hx2
    obtain ⟨r, hr, rfl⟩ := List.mem_map.mp hx
    obtain ⟨p, hp, hpx⟩ := List.mem_map.mp hx2
    have h1 := hfresh r hr
    have h2 := (hinsBound p hp).2
    omega
  have hcsRkNodup : (cs.store.map (·.rank)).Nodup := by
    rw [rank_map_eq_snd_of_idrank, hcsIdrank, List.map_append, ← rank_map_eq_snd_of_idrank]
    refine List.Nodup.append hrk (insertedIdRanks_snd_nodup _ _ _) ?_
    intro x hx hx2
    obtain ⟨r, hr, rfl⟩ := List.mem_map.mp hx
    obtain ⟨p, hp, hpx⟩ := List.mem_map.mp hx2
    have h1 := hmaxStore r hr
    have h2 := (hinsBound p hp).1
    omega
  have hsubIdrank : ∀ ids : List Nat,
      ((applyTcEvents cs.store [.deleteContent ids, .deleteCases ids]).map
        fun r => (r.id, r.rank)).Sublist (cs.store.map fun r => (r.id, r.rank)) := by
    intro ids
    have h1 : applyTcEvents cs.store [.deleteContent ids, .deleteCases ids] =
        applyTcEvent (applyTcEvent cs.store (.deleteContent ids)) (.deleteCases ids) := rfl
    rw [h1]
    have h2 := applyTcEvent_deleteCases_id_rank_sublist
      (applyTcEvent cs.store (.deleteContent ids)) ids
    rw [applyTcEvent_deleteContent_id_rank] at h2
    exact h2
  refine ⟨?_, ?_, ?_⟩
  · split
    · next hemp =>
        rw [applyTcEvents_nil, hexCid]
        refine hcsPerm.trans ?_
        have hremNil : L.take (L.length - ms.missing.length) = [] := by
          rw [← hcsLeft]
          exact List.isEmpty_iff.mp hemp
        rw [hremNil]
        simp only [List.map_nil, List.nil_append]
        exact List.Perm.refl _
    · next hemp =>
        have hdel : applyTcEvents cs.store
            [TcEvent.deleteContent (cs.leftover.map (·.case_id)),
             TcEvent.deleteCases (cs.leftover.map (·.case_id))] =
            applyTcEvent (applyTcEvent cs.store
              (.deleteContent (cs.leftover.map (·.case_id))))
              (.deleteCases (cs.leftover.map (·.case_id))) := rfl
        rw [hdel, hexCid, applyTcEvent_deleteCases_eq]
        refine filter_delete_perm _ _ (cs.leftover.map fun c => (c.case_id, c.rank)) _
          ?_ ?_ ?_
        · rw [id_map_eq_fst_of_idrank, applyTcEvent_deleteContent_id_rank,
            ← id_map_eq_fst_of_idrank]
          exact hcsIdNodup
        · rw [List.map_map]
          rfl
        · rw [applyTcEvent_deleteContent_id_rank]
          refine hcsPerm.trans ?_
          have hLeftEq : (cs.leftover.map fun c => (c.case_id, c.rank)) =
              ((L.take (L.length - ms.missing.length)).map fun c => (c.case_id, c.rank)) := by
            rw [hcsLeft]
          rw [hLeftEq]
          exact perm_append_swap_left _ _ _
  · split
    · rw [applyTcEvents_nil]
      exact hcsIdNodup
    · rw [id_map_eq_fst_of_idrank]
      refine ((hsubIdrank _).map Prod.fst).nodup ?_
      rw [← id_map_eq_fst_of_idrank]
      exact hcsIdNodup
  · split
    · rw [applyTcEvents_nil]
      exact hcsRkNodup
    · rw [rank_map_eq_snd_of_idrank]
      refine ((hsubIdrank _).map Prod.snd).nodup ?_
      rw [← rank_map_eq_snd_of_idrank]
      exact hcsRkNodup

/-- The content-rewrite and image-strip phases after the rank phase do
not touch any row's id or rank. -/
theorem reconcileTestCasesP_store_idrank (desired : List ProblemTestCase) (store : List TcRow)
    (nextId : Nat) :
    ((reconcileTestCasesP desired store nextId).store.map fun r => (r.id, r.rank)) =
      ((applyRankWrites (reconcilePrepP desired store nextId).store
        (rankPhaseWrites ((reconcilePrepP desired store nextId).existing.map (·.2)))).map
        fun r => (r.id, r.rank)) := by
  unfold reconcileTestCasesP
  dsimp only
  set prep := reconcilePrepP desired store nextId with hprepDef
  set ws := rankPhaseWrites (prep.existing.map (·.2)) with hwsDef
  set s3 := applyTcEvents prep.store (ws.map fun w => TcEvent.updateRank w.1 w.2) with hs3
  set s4 := applyTcEvents s3 (contentEvents prep.upd_content) with hs4
  have hcont : (s4.map fun r => (r.id, r.rank)) = s3.map fun r => (r.id, r.rank) := by
    rw [hs4]
    apply applyTcEvents_id_rank_preserve
    intro e he s2
    unfold contentEvents at he
    obtain ⟨pc, -, rfl⟩ := List.mem_map.mp he
    exact applyTcEvent_replaceContent_id_rank _ _ _
  split
  · rw [applyTcEvents_nil]
    exact hcont
  · have hstrip : ∀ (s2 : List TcRow) (ids : List Nat) (n : Nat),
        ((applyTcEvents s2 [TcEvent.stripImages ids n]).map fun r => (r.id, r.rank)) =
          s2.map fun r => (r.id, r.rank) := by
      intro s2 ids n
      have h1 : applyTcEvents s2 [TcEvent.stripImages ids n] =
          applyTcEvent s2 (.stripImages ids n) := rfl
      rw [h1, applyTcEvent_stripImages_id_rank]
    rw [hstrip]
    exact hcont

/-- C1: over a snapshot whose persisted ranks are pairwise distinct
(and whose ids are pairwise distinct and below the auto-increment
counter, as the database guarantees), the rank-reassignment phase is
the temporary-rank writes followed by the target writes; the temporary
ranks are strictly increasing, strictly above every rank live at the
start of the phase, and strictly above every target rank of the run;
no single write assigns a rank currently held by another live row; and
after the run completes the ranks of the live test cases are exactly
the set {1..N} for the N desired cases. -/
theorem two_phase_rank_reassignment (desired : List ProblemTestCase) (store : List TcRow)
    (nextId : Nat)
    (hid : (store.map (·.id)).Nodup)
    (hrk : (store.map (·.rank)).Nodup)
    (hfresh : ∀ r ∈ store, r.id < nextId) :
    reconcileTestCases desired store nextId =
      .ok (reconcileTestCasesP desired store nextId) ∧
    rankPhaseWrites ((reconcilePrepP desired store nextId).existing.map (·.2)) =
      phase1Writes ((reconcilePrepP desired store nextId).existing.map (·.2)) ++
        phase2Writes ((reconcilePrepP desired store nextId).existing.map (·.2)) ∧
    ((phase1Writes ((reconcilePrepP desired store nextId).existing.map (·.2))).map
      (·.2)).Pairwise (· < ·) ∧
    (∀ w ∈ phase1Writes ((reconcilePrepP desired store nextId).existing.map (·.2)),
      (∀ r ∈ (reconcilePrepP desired store nextId).store, r.rank < w.2) ∧
      (∀ p ∈ phase2Writes ((reconcilePrepP desired store nextId).existing.map (·.2)),
        p.2 < w.2)) ∧
    rankWritesSafe (reconcilePrepP desired store nextId).store
      (rankPhaseWrites ((reconcilePrepP desired store nextId).existing.map (·.2))) = true ∧
    ((reconcileTestCasesP desired store nextId).store.map (·.rank)).Perm
      (List.range' 1 desired.length) := by
  obtain ⟨hB, hidS, hrkS⟩ := reconcilePrepP_accounting desired store nextId hid hrk hfresh
  have hidC : (((reconcilePrepP desired store nextId).existing.map (·.2)).map
      (·.case_id)).Nodup := by
    have h := (hB.map (fun p : Nat × Nat => p.1)).nodup
      (by rw [List.map_map]; exact hidS)
    rw [List.map_map] at h
    exact h
  have hrkC : (((reconcilePrepP desired store nextId).existing.map (·.2)).map
      (·.rank)).Nodup := by
    have h := (hB.map (fun p : Nat × Nat => p.2)).nodup
      (by rw [List.map_map]; exact hrkS)
    rw [List.map_map] at h
    exact h
  obtain ⟨hsafe, hperm, hbig, hmono⟩ :=
    rankPlanSound ((reconcilePrepP desired store nextId).existing.map (·.2))
      (reconcilePrepP desired store nextId).store hB hidC hrkC
  have hlen : (reconcilePrepP desired store nextId).existing.length = desired.length := by
    obtain ⟨prep', hprep', hlen'⟩ := reconcilePrep_ok desired store nextId
    rw [reconcilePrep_eq_pure] at hprep'
    injection hprep' with h
    rw [h]
    exact hlen'
  refine ⟨reconcileTestCases_eq_pure desired store nextId, rankPhaseWrites_split _,
    hmono, ?_, hsafe, ?_⟩
  · intro w hw
    refine ⟨(hbig w hw).1, ?_⟩
    intro p hp
    exact Nat.lt_of_le_of_lt (phase2Writes_val_le _ p hp).2 (hbig w hw).2
  · rw [rank_map_eq_snd_of_idrank, reconcileTestCasesP_store_idrank,
      ← rank_map_eq_snd_of_idrank]
    have hClen : ((reconcilePrepP desired store nextId).existing.map (·.2)).length =
        desired.length := by
      rw [List.length_map]
      exact hlen
    rw [← hClen]
    exact hperm

theorem two_phase_rank_reassignment_witness :
    ((([] : List TcRow).map (·.id)).Nodup ∧ (([] : List TcRow).map (·.rank)).Nodup ∧
      (∀ r ∈ ([] : List TcRow), r.id < 5)) ∧
    ((reconcileTestCasesP [⟨"t1", none, "i", "o", false, none⟩] [] 5).store.map
      (·.rank)).Perm (List.range' 1 1) :=
  ⟨⟨by simp, by simp, by simp⟩,
   (two_phase_rank_reassignment [⟨"t1", none, "i", "o", false, none⟩] [] 5
      (by simp) (by simp) (by simp)).2.2.2.2.2⟩

/-! ### The successor walk: termination and cycle detection (C4) -/

theorem nodup_subset_length {α : Type} [DecidableEq α] :
    ∀ (l L : List α), l.Nodup → (∀ x ∈ l, x ∈ L) → l.length ≤ L.length := by
  intro l
  induction l with
  | nil => intro L _ _; simp
  | cons x t ih =>
      intro L hnd hsub
      rw [List.nodup_cons] at hnd
      have hx : x ∈ L := hsub x (List.mem_cons_self _ _)
      have ht : ∀ y ∈ t, y ∈ L.erase x := by
        intro y hy
        refine List.mem_erase_of_ne ?_ |>.mpr (hsub y (List.mem_cons_of_mem _ hy))
        intro hc
        exact hnd.1 (hc ▸ hy)
      have := ih (L.erase x) hnd.2 ht
      have hlen := List.length_erase_of_mem hx
      have hpos := List.length_pos_of_mem hx
      rw [List.length_cons]
      omega

theorem chainWalk_step (succ : List (Nat × Nat)) (f : Nat) (visited : List Nat) (m : Nat) :
    chainWalk succ (f + 1) visited m =
      match succ.lookup m with
      | none => .ok m
      | some next =>
          if next ∈ m :: visited then .error .cyclicSubmission
          else chainWalk succ f (m :: visited) next := rfl

/-- The fuel `|successor| + 1` always suffices: the while loop of lines
564-568 terminates after finitely many steps (each iteration commits a
fresh key of the successor map to `visited`). -/
theorem chainWalk_not_nontermination (succ : List (Nat × Nat)) :
    ∀ (fuel : Nat) (visited : List Nat) (m : Nat),
      visited.Nodup → (∀ v ∈ visited, v ∈ succ.map (·.1)) → m ∉ visited →
      succ.length + 1 ≤ fuel + visited.length →
      chainWalk succ fuel visited m ≠ .error .walkNontermination := by
  intro fuel
  induction fuel with
  | zero =>
      intro visited m hnd hsub hm hlen
      have h := nodup_subset_length visited (succ.map (·.1)) hnd hsub
      rw [List.length_map] at h
      intro _
      omega
  | succ f ih =>
      intro visited m hnd hsub hm hlen
      rw [chainWalk_step]
      cases hlk : succ.lookup m with
      | none => simp
      | some next =>
          dsimp only
          by_cases hnext : next ∈ m :: visited
          · rw [if_pos hnext]
            simp
          · rw [if_neg hnext]
            refine ih (m :: visited) next (List.nodup_cons.mpr ⟨hm, hnd⟩) ?_ hnext ?_
            · intro v hv
              rcases List.mem_cons.mp hv with rfl | hv
              · exact List.mem_map.mpr ⟨(v, next), lookup_eq_some_mem hlk, rfl⟩
              · exact hsub v hv
            · rw [List.length_cons]
              omega

/-- When every successor value is itself a key of the successor map
(the walk can never leave the map) the walk never returns a head. -/
theorem chainWalk_closed_no_ok (succ : List (Nat × Nat))
    (hclosed : ∀ p ∈ succ, p.2 ∈ succ.map (·.1)) :
    ∀ (fuel : Nat) (visited : List Nat) (m : Nat), m ∈ succ.map (·.1) →
      ∀ h : Nat, chainWalk succ fuel visited m ≠ .ok h := by
  intro fuel
  induction fuel with
  | zero =>
      intro visited m hm h
      have : chainWalk succ 0 visited m = .error .walkNontermination := rfl
      rw [this]
      simp
  | succ f ih =>
      intro visited m hm h
      rw [chainWalk_step]
      cases hlk : succ.lookup m with
      | none =>
          have hsome := (lookup_isSome_iff_mem succ m).mpr hm
          rw [hlk] at hsome
          simp at hsome
      | some next =>
          dsimp only
          by_cases hnext : next ∈ m :: visited
          · rw [if_pos hnext]
            simp
          · rw [if_neg hnext]
            exact ih (m :: visited) next
              (hclosed (m, next) (lookup_eq_some_mem hlk)) h

/-- The walk produces only a head, the cycle error, or the (unreachable)
fuel marker. -/
theorem chainWalk_cases (succ : List (Nat × Nat)) :
    ∀ (fuel : Nat) (visited : List Nat) (m : Nat),
      chainWalk succ fuel visited m = .error .walkNontermination ∨
      chainWalk succ fuel visited m = .error .cyclicSubmission ∨
      ∃ h, chainWalk succ fuel visited m = .ok h := by
  intro fuel
  induction fuel with
  | zero => intro visited m; exact Or.inl rfl
  | succ f ih =>
      intro visited m
      rw [chainWalk_step]
      cases hlk : succ.lookup m with
      | none => exact Or.inr (Or.inr ⟨m, rfl⟩)
      | some next =>
          dsimp only
          by_cases hnext : next ∈ m :: visited
          · rw [if_pos hnext]
            exact Or.inr (Or.inl rfl)
          · rw [if_neg hnext]
            exact ih (m :: visited) next

/-- C4 (amended): the successor walk of lines 560-571 always terminates
after at most `|successor| + 1` iterations — it never loops forever —
and when the walked chain cannot leave the successor map (in particular
when the persisted predecessors of the walked group form a cycle, such
as A↔B) it raises the cyclic-chain error; any error raised during
preparation, this one included, aborts `create_problem_submissions`
before any write is performed.  (Unamended, the claim is false: a cycle
in a part of the snapshot the walk never reaches raises nothing — see
the counterexample.) -/
theorem cyclic_chain_error_detected (succ : List (Nat × Nat)) (first : Nat) :
    chainWalk succ (succ.length + 1) [] first ≠ .error .walkNontermination ∧
    ((∀ p ∈ succ, p.2 ∈ succ.map (·.1)) → first ∈ succ.map (·.1) →
      chainWalk succ (succ.length + 1) [] first = .error .cyclicSubmission) ∧
    (∀ (desired : List (Nat × ProblemSubmission)) (contestIds : List Nat)
        (contests : List (Nat × Nat)) (store : SubStore) (nextId : Nat) (e : SubError),
      subPrepare desired contestIds contests store = .error e →
      create_problem_submissions desired contestIds contests store nextId = .error e) := by
  refine ⟨?_, ?_, ?_⟩
  · exact chainWalk_not_nontermination succ (succ.length + 1) [] first
      (List.nodup_nil) (by intro v hv; simp at hv) (by simp) (by simp)
  · intro hclosed hfirst
    rcases chainWalk_cases succ (succ.length + 1) [] first with h | h | ⟨hd, h⟩
    · exact absurd h (chainWalk_not_nontermination succ (succ.length + 1) [] first
        (List.nodup_nil) (by intro v hv; simp at hv) (by simp) (by simp))
    · exact h
    · exact absurd h (chainWalk_closed_no_ok succ hclosed (succ.length + 1) [] first hfirst hd)
  · intro desired contestIds contests store nextId e he
    unfold create_problem_submissions
    rw [he]

theorem cyclic_chain_error_detected_witness :
    ((∀ p ∈ [(60, 61), (61, 60)], p.2 ∈ [(60, 61), (61, 60)].map (·.1)) ∧
      (60 : Nat) ∈ [(60, 61), (61, 60)].map (·.1) ∧
      subPrepare ([] : List (Nat × ProblemSubmission)) [] []
        { subs := [], files := [] } = .error .malformedQuery) ∧
    chainWalk [(60, 61), (61, 60)] ([(60, 61), (61, 60)].length + 1) [] 60 =
      .error .cyclicSubmission ∧
    create_problem_submissions ([] : List (Nat × ProblemSubmission)) [] []
      { subs := [], files := [] } 7 = .error .malformedQuery :=
  ⟨⟨by decide, by decide, rfl⟩,
   (cyclic_chain_error_detected [(60, 61), (61, 60)] 60).2.1 (by decide) (by decide),
   (cyclic_chain_error_detected [(60, 61), (61, 60)] 60).2.2 [] [] []
     { subs := [], files := [] } 7 .malformedQuery rfl⟩

/-- C4 (counterexample): a persisted predecessor cycle (60↔61) in a
bucket whose walk starts at the standalone head 62 raises no error at
all — the run completes with no write and an all-zero summary. -/
theorem cyclic_chain_unreached_no_error_cx :
    (∃ ra ∈ cxCycleStore.subs, ∃ rb ∈ cxCycleStore.subs,
      ra.origsubmitid = some rb.submitid ∧ rb.origsubmitid = some ra.submitid ∧
        ra.submitid ≠ rb.submitid) ∧
    ∃ res,
      create_problem_submissions [(5, ⟨"a.py", "py", "H", []⟩)] [1] [(1, 100)]
        cxCycleStore 1000 = .ok res ∧ res.events = [] ∧ res.summary = (0, 0, 0) := by
  constructor
  · exact ⟨cxCycleRow60, by decide, cxCycleRow61, by decide, by decide, by decide, by decide⟩
  · exact ⟨_, rfl, rfl, rfl⟩

/-! ### Identical heads: NoOp in the judge engine, metadata refresh only
in the pydomjudge variant (C6) -/

theorem submissionInsertNeeded_identical (sub : ProblemSubmission) (fns : List String)
    (existing : List (Nat × SubInfo)) (filesAssoc : List (Nat × List (String × String)))
    (hid : Nat) (info : SubInfo) (efs : List (String × String))
    (hex : existing.lookup hid = some info)
    (hfs : filesAssoc.lookup hid = some efs)
    (hlang : sub.language_key = info.langid)
    (hfns : sortStrings fns.eraseDups = sortStrings ((efs.map (·.1)).eraseDups))
    (hlen : fns.length = 1)
    (hmd5 : efs.lookup sub.file_name = some sub.source_md5) :
    submissionInsertNeeded sub fns existing filesAssoc hid = .ok false := by
  unfold submissionInsertNeeded
  rw [hex]
  dsimp only
  rw [hfs]
  dsimp only [Option.getD]
  rw [if_neg (by simp [hlang]), if_neg (by simp [hfns]), if_neg (by simp [hlen]), hmd5]
  simp

/-- C6 (amended): for a desired submission whose group head has the
same language key, the same file-name set and an identical per-file
content hash, the judge engine (lines 580-611) performs no write at all
for that group — not even a metadata refresh — while the pydomjudge
variant of the same loop issues exactly one
`UPDATE submission SET submittime = ..., expected_results = ...` on the
head.  The claimed always-applied UpdateMetadata exists only in the
pydomjudge variant. -/
theorem identical_head_metadata_refresh
    (contest_start : List (Nat × Nat)) (current : List ((Nat × Nat × List String) × Nat))
    (existing : List (Nat × SubInfo)) (filesAssoc : List (Nat × List (String × String)))
    (cid tid hid : Nat) (fns : List String) (sub : ProblemSubmission) (info : SubInfo)
    (efs : List (String × String)) (st : PlanState)
    (hcur : current.lookup (cid, tid, fns) = some hid)
    (hex : existing.lookup hid = some info)
    (hfs : filesAssoc.lookup hid = some efs)
    (hlang : sub.language_key = info.langid)
    (hfns : sortStrings fns.eraseDups = sortStrings ((efs.map (·.1)).eraseDups))
    (hlen : fns.length = 1)
    (hmd5 : efs.lookup sub.file_name = some sub.source_md5) :
    planStep contest_start current existing filesAssoc cid st ((tid, fns), sub) = .ok st ∧
    planStepDJ contest_start current existing filesAssoc cid st ((tid, fns), sub) =
      .ok { st with events := st.events ++
        [.updateSubmissionMeta hid ((contest_start.lookup cid).getD 0)
          (sub.expected_results.map Verdict.judge_key)] } := by
  have hneed := submissionInsertNeeded_identical sub fns existing filesAssoc hid info efs
    hex hfs hlang hfns hlen hmd5
  constructor
  · unfold planStep
    dsimp only
    rw [hcur]
    dsimp only
    rw [hneed]
  · unfold planStepDJ
    dsimp only
    rw [hcur]
    dsimp only
    rw [hneed]

theorem identical_head_metadata_refresh_witness :
    (([((1, 5, ["a.py"]), 62)] : List ((Nat × Nat × List String) × Nat)).lookup
        (1, 5, ["a.py"]) = some 62 ∧
      ([(62, ⟨none, 5, 1, "py", []⟩)] : List (Nat × SubInfo)).lookup 62 =
        some ⟨none, 5, 1, "py", []⟩ ∧
      ([(62, [("a.py", "H")])] : List (Nat × List (String × String))).lookup 62 =
        some [("a.py", "H")]) ∧
    planStep [(1, 100)] [((1, 5, ["a.py"]), 62)] [(62, ⟨none, 5, 1, "py", []⟩)]
        [(62, [("a.py", "H")])] 1
        { events := [], new_submissions := 0, updated_submissions := 0, nextId := 1000 }
        ((5, ["a.py"]), ⟨"a.py", "py", "H", []⟩) =
      .ok { events := [], new_submissions := 0, updated_submissions := 0, nextId := 1000 } :=
  ⟨⟨rfl, rfl, rfl⟩,
   (identical_head_metadata_refresh [(1, 100)] [((1, 5, ["a.py"]), 62)]
     [(62, ⟨none, 5, 1, "py", []⟩)] [(62, [("a.py", "H")])] 1 5 62 ["a.py"]
     ⟨"a.py", "py", "H", []⟩ ⟨none, 5, 1, "py", []⟩ [("a.py", "H")]
     { events := [], new_submissions := 0, updated_submissions := 0, nextId := 1000 }
     rfl rfl rfl rfl (by decide) rfl rfl).1⟩

/-- C6 (counterexample): a full judge run over an identical head
performs no write at all — in particular no UpdateMetadata refresh. -/
theorem identical_head_no_metadata_write_cx :
    ∃ res, create_problem_submissions [(5, ⟨"a.py", "py", "H", []⟩)] [1] [(1, 100)]
        cxIdentStore 1000 = .ok res ∧
      res.events = [] ∧ res.summary = (0, 0, 0) ∧ res.store = cxIdentStore :=
  ⟨_, rfl, rfl, rfl, rfl⟩

/-! ### Differing heads: a single chain-extending insert (C5) -/

theorem submissionInsertNeeded_differing (sub : ProblemSubmission) (fns : List String)
    (existing : List (Nat × SubInfo)) (filesAssoc : List (Nat × List (String × String)))
    (hid : Nat) (info : SubInfo) (efs : List (String × String)) (h : String)
    (hex : existing.lookup hid = some info)
    (hfs : filesAssoc.lookup hid = some efs)
    (hlang : sub.language_key = info.langid)
    (hfns : sortStrings fns.eraseDups = sortStrings ((efs.map (·.1)).eraseDups))
    (hlen : fns.length = 1)
    (hmd5 : efs.lookup sub.file_name = some h)
    (hneq : sub.source_md5 ≠ h) :
    submissionInsertNeeded sub fns existing filesAssoc hid = .ok true := by
  unfold submissionInsertNeeded
  rw [hex]
  dsimp only
  rw [hfs]
  dsimp only [Option.getD]
  rw [if_neg (by simp [hlang]), if_neg (by simp [hfns]), if_neg (by simp [hlen]), hmd5]
  simp [hneq]

/-- C5: when a group's existing head has the same language and
file-name set but a differing stored content hash, the plan performs
for that (contest, group) exactly one submission INSERT (plus its
submission_file INSERT) whose `origsubmitid` is the existing head's id;
and applying those two INSERTs to any store appends exactly one new
submission row — every pre-existing row, the old head included, is
preserved. -/
theorem differing_head_single_insert
    (contest_start : List (Nat × Nat)) (current : List ((Nat × Nat × List String) × Nat))
    (existing : List (Nat × SubInfo)) (filesAssoc : List (Nat × List (String × String)))
    (cid tid hid : Nat) (fns : List String) (sub : ProblemSubmission) (info : SubInfo)
    (efs : List (String × String)) (h : String) (st : PlanState)
    (hcur : current.lookup (cid, tid, fns) = some hid)
    (hex : existing.lookup hid = some info)
    (hfs : filesAssoc.lookup hid = some efs)
    (hlang : sub.language_key = info.langid)
    (hfns : sortStrings fns.eraseDups = sortStrings ((efs.map (·.1)).eraseDups))
    (hlen : fns.length = 1)
    (hmd5 : efs.lookup sub.file_name = some h)
    (hneq : sub.source_md5 ≠ h) :
    planStep contest_start current existing filesAssoc cid st ((tid, fns), sub) =
      .ok { events := st.events ++
              [.insertSubmission st.nextId (some hid) cid tid sub.language_key
                 ((contest_start.lookup cid).getD 0) (sub.expected_results.map Verdict.pyName),
               .insertSubmissionFile st.nextId sub.file_name sub.source_md5],
            new_submissions := st.new_submissions,
            updated_submissions := st.updated_submissions + 1,
            nextId := st.nextId + 1 } ∧
    (∀ store : SubStore,
      (applySubEvents store
        [.insertSubmission st.nextId (some hid) cid tid sub.language_key
           ((contest_start.lookup cid).getD 0) (sub.expected_results.map Verdict.pyName),
         .insertSubmissionFile st.nextId sub.file_name sub.source_md5]).subs =
      store.subs ++
        [{ submitid := st.nextId, origsubmitid := some hid, teamid := tid, cid := cid,
           expected_results := some (sub.expected_results.map Verdict.pyName),
           langid := sub.language_key,
           submittime := (contest_start.lookup cid).getD 0 }]) := by
  have hneed := submissionInsertNeeded_differing sub fns existing filesAssoc hid info efs h
    hex hfs hlang hfns hlen hmd5 hneq
  constructor
  · unfold planStep
    dsimp only
    rw [hcur]
    dsimp only
    rw [hneed]
  · intro store
    rfl

theorem differing_head_single_insert_witness :
    (([((1, 5, ["a.py"]), 62)] : List ((Nat × Nat × List String) × Nat)).lookup
        (1, 5, ["a.py"]) = some 62 ∧
      ("H2" : String) ≠ "H") ∧
    planStep [(1, 100)] [((1, 5, ["a.py"]), 62)] [(62, ⟨none, 5, 1, "py", []⟩)]
        [(62, [("a.py", "H")])] 1
        { events := [], new_submissions := 0, updated_submissions := 0, nextId := 1000 }
        ((5, ["a.py"]), ⟨"a.py", "py", "H2", []⟩) =
      .ok { events :=
              [.insertSubmission 1000 (some 62) 1 5 "py" 100 [],
               .insertSubmissionFile 1000 "a.py" "H2"],
            new_submissions := 0, updated_submissions := 1, nextId := 1001 } :=
  ⟨⟨rfl, by decide⟩, by
    have := (differing_head_single_insert [(1, 100)] [((1, 5, ["a.py"]), 62)]
      [(62, ⟨none, 5, 1, "py", []⟩)] [(62, [("a.py", "H")])] 1 5 62 ["a.py"]
      ⟨"a.py", "py", "H2", []⟩ ⟨none, 5, 1, "py", []⟩ [("a.py", "H")] "H"
      { events := [], new_submissions := 0, updated_submissions := 0, nextId := 1000 }
      rfl rfl rfl rfl (by decide) rfl rfl (by decide)).1
    exact this⟩

/-! ### Idempotence (C3) -/

theorem slotsFrom_length (P : List (Nat × ((Nat × List String) × ProblemSubmission))) :
    ∀ nid : Nat, (slotsFrom P nid).length = P.length := by
  induction P with
  | nil => intro nid; rfl
  | cons cg P ih =>
      intro nid
      unfold slotsFrom
      rw [List.length_cons, List.length_cons, ih (nid + 1)]

theorem slotsFrom_mem_of_mem (P : List (Nat × ((Nat × List String) × ProblemSubmission))) :
    ∀ nid : Nat, ∀ cg ∈ P, ∃ sid, (cg, sid) ∈ slotsFrom P nid := by
  induction P with
  | nil => intro nid cg hcg; simp at hcg
  | cons cg0 P ih =>
      intro nid cg hcg
      unfold slotsFrom
      rcases List.mem_cons.mp hcg with rfl | hcg
      · exact ⟨nid, List.mem_cons_self _ _⟩
      · obtain ⟨sid, hsid⟩ := ih (nid + 1) cg hcg
        exact ⟨sid, List.mem_cons_of_mem _ hsid⟩

/-- Generic association-list lookup for a member with pairwise distinct
keys. -/
theorem lookup_of_mem_nodup_generic {α β : Type} [BEq α] [LawfulBEq α] :
    ∀ {ps : List (α × β)} {k : α} {v : β}, (k, v) ∈ ps → ((ps.map (·.1)).Nodup) →
      ps.lookup k = some v := by
  intro ps
  induction ps with
  | nil => intro k v hm _; simp at hm
  | cons p rest ih =>
      intro k v hm hnd
      rw [List.map_cons, List.nodup_cons] at hnd
      rcases List.mem_cons.mp hm with heq | hm
      · rw [← heq]
        rw [List.lookup]
        simp
      · have hne : (k == p.1) = false := by
          simp only [beq_eq_false_iff_ne, ne_eq]
          intro hc
          exact hnd.1 (hc ▸ List.mem_map.mpr ⟨(k, v), hm, rfl⟩)
        rw [List.lookup, hne]
        exact ih hm hnd.2

end Pyjudge
